import Mathlib

/-!
# NetworkManager: DHCP client orchestration and shared utilities

A shallow embedding of the parts of the repository that the specification
talks about:

* `shared/nm-glib-aux/nm-shared-utils.c`: the cancellation errors
  (`nm_utils_error_set_cancelled`, `nm_utils_error_is_cancelled`) and the strict
  integer parsers (`_nm_utils_ascii_str_to_int64`, `_nm_utils_ascii_str_to_uint64`);
* `src/dhcp/nm-dhcp-client.h`: the lease states, the timeout constants and the
  backend class.  The bodies of the `nm_dhcp_client_*` functions live in
  `nm-dhcp-client.c`, which is not included; they are modelled from the
  specification and marked as such.

C strings are lists of characters; reading past the end of the list reads the
terminating NUL, so a NUL inside a list ends the string exactly as it does in C.
Machine integers are `Nat` and `Int` with explicit bounds.
-/

namespace NM

/-! ## GLib errors -/

/-- A `GQuark` is an interned string; two quarks are equal exactly when their
strings are, so the quark is represented by its string. -/
abbrev GQuark := String

/-- The `GError` record of GLib: domain, code and message. -/
structure GError where
  domain : GQuark
  code : Int
  message : String
  deriving DecidableEq, Repr

/-- The three shapes of a `GError **` argument: a NULL pointer (the caller does
not want the error), a pointer to an empty location, a pointer to a location
that already holds an error. -/
inductive ErrorSlot where
  | null : ErrorSlot
  | empty : ErrorSlot
  | set : GError → ErrorSlot
  deriving DecidableEq, Repr

/-- `G_IO_ERROR` is `g_io_error_quark ()`, the quark of "g-io-error-quark" (GIO). -/
def G_IO_ERROR : GQuark := "g-io-error-quark"

/-- `G_IO_ERROR_CANCELLED` of the `GIOErrorEnum` of GIO. -/
def G_IO_ERROR_CANCELLED : Int := 19

/-- `NM_CACHED_QUARK_FCN ("nm-utils-error-quark", nm_utils_error_quark)`. -/
def nm_utils_error_quark : GQuark := "nm-utils-error-quark"

/-- `NM_UTILS_ERROR` is `nm_utils_error_quark ()`. -/
def NM_UTILS_ERROR : GQuark := nm_utils_error_quark

/-- GLib `g_set_error` / `g_set_error_literal`: store a new error unless the
caller passed NULL; a location that is already set is left alone (GLib warns). -/
def g_set_error (error : ErrorSlot) (domain : GQuark) (code : Int) (message : String) :
    ErrorSlot :=
  match error with
  | .null => .null
  | .empty => .set { domain := domain, code := code, message := message }
  | .set e => .set e

/-- GLib `g_error_matches`: the error is non-NULL and has this domain and code. -/
def g_error_matches (error : Option GError) (domain : GQuark) (code : Int) : Bool :=
  match error with
  | none => false
  | some e => e.domain == domain && e.code == code

/-- `nm_utils_error_set_cancelled` of nm-shared-utils.c.  The enumerator
`NM_UTILS_ERROR_CANCELLED_DISPOSING` is declared in nm-shared-utils.h, which is
not among the sources, so its value is an argument. -/
def nm_utils_error_set_cancelled (NM_UTILS_ERROR_CANCELLED_DISPOSING : Int)
    (error : ErrorSlot) (is_disposing : Bool) (instance_name : Option String) : ErrorSlot :=
  if is_disposing then
    g_set_error error NM_UTILS_ERROR NM_UTILS_ERROR_CANCELLED_DISPOSING
      ("Disposing " ++
        (match instance_name with
          | some n => if n ≠ "" then n else "source"
          | none => "source") ++ " instance")
  else
    g_set_error error G_IO_ERROR G_IO_ERROR_CANCELLED "Request cancelled"

/-- `nm_utils_error_is_cancelled` of nm-shared-utils.c. -/
def nm_utils_error_is_cancelled (NM_UTILS_ERROR_CANCELLED_DISPOSING : Int)
    (error : Option GError) (consider_is_disposing : Bool) : Bool :=
  match error with
  | some e =>
    if e.domain = G_IO_ERROR then
      e.code == G_IO_ERROR_CANCELLED
    else if consider_is_disposing && e.domain = NM_UTILS_ERROR then
      e.code == NM_UTILS_ERROR_CANCELLED_DISPOSING
    else
      false
  | none => false

/-! ## nm-dhcp-client.h: constants and lease states -/

/-- `NM_DHCP_TIMEOUT_DEFAULT ((guint32) 45)`. -/
def NM_DHCP_TIMEOUT_DEFAULT : Nat := 45

/-- GLib `G_MAXINT32`, `(gint32) 0x7fffffff`. -/
def G_MAXINT32 : Nat := 0x7fffffff

/-- `NM_DHCP_TIMEOUT_INFINITY G_MAXINT32`. -/
def NM_DHCP_TIMEOUT_INFINITY : Nat := G_MAXINT32

/-- The enumerators of `NMDhcpState` that name a state, in declaration order. -/
inductive NMDhcpState where
  | NM_DHCP_STATE_UNKNOWN
  | NM_DHCP_STATE_BOUND
  | NM_DHCP_STATE_TIMEOUT
  | NM_DHCP_STATE_DONE
  | NM_DHCP_STATE_EXPIRE
  | NM_DHCP_STATE_FAIL
  | NM_DHCP_STATE_TERMINATED
  deriving DecidableEq, Repr

open NMDhcpState

/-- The integer value of each enumerator: the first is `= 0`, every following
one is the previous plus one. -/
def NMDhcpState.toNat : NMDhcpState → Nat
  | NM_DHCP_STATE_UNKNOWN => 0
  | NM_DHCP_STATE_BOUND => 1
  | NM_DHCP_STATE_TIMEOUT => 2
  | NM_DHCP_STATE_DONE => 3
  | NM_DHCP_STATE_EXPIRE => 4
  | NM_DHCP_STATE_FAIL => 5
  | NM_DHCP_STATE_TERMINATED => 6

/-- `__NM_DHCP_STATE_MAX`, the enumerator that follows `NM_DHCP_STATE_TERMINATED`. -/
def __NM_DHCP_STATE_MAX : Nat := NM_DHCP_STATE_TERMINATED.toNat + 1

/-- `NM_DHCP_STATE_MAX = __NM_DHCP_STATE_MAX - 1`. -/
def NM_DHCP_STATE_MAX : Nat := __NM_DHCP_STATE_MAX - 1

/-- A zero-initialised `NMDhcpState`, as in a freshly allocated private struct. -/
def NMDhcpState.zero : NMDhcpState := NM_DHCP_STATE_UNKNOWN

/-! ## nm-dhcp-client.h: the backend class -/

/-- `NMDhcpClientFlags`. -/
def NM_DHCP_CLIENT_FLAGS_INFO_ONLY : Nat := 1 <<< 0

/-- `NMDhcpClientFlags`. -/
def NM_DHCP_CLIENT_FLAGS_USE_FQDN : Nat := 1 <<< 1

/-- The virtual functions of `NMDhcpClientClass`.  A backend keeps private data of
type `β`; a function that can fail returns the `GError` message on failure. -/
structure NMDhcpClientClass (β : Type) where
  ip4_start : β → Option String → Option String → Except String β
  accept : β → Except String β
  decline : β → String → Except String β
  ip6_start : β → Option String → List Nat → Nat → Nat → Except String β
  stop : β → Bool → β
  get_duid : β → Option (List Nat)

/-! ## The DHCP client core

`nm-dhcp-client.c` is not among the sources: only the declarations of
`nm-dhcp-client.h` are.  The definitions of this section follow the
specification. -/

/-- The `str:str` option bag of a lease. -/
abbrev Options := List (String × String)

/-- Stand-in for the structured IP configuration object (`NMIPConfig`), which is
built outside of the DHCP client. -/
structure NMIPConfig where
  entries : List (String × String)
  deriving DecidableEq, Repr

/-- Modelled from the spec: the notifications of section 6, `state-changed` and
the IPv6 `prefix-delegated`; the emitting code of nm-dhcp-client.c is missing. -/
inductive Notification where
  | state_changed : NMDhcpState → Option NMIPConfig → Option Options → Notification
  | ipv6_prefix_delegated : String → Nat → Notification
  deriving DecidableEq, Repr

/-- Modelled from the spec: the ClientInstance of section 3, standing for the
private struct of nm-dhcp-client.c, which is missing.  `timer` is the armed
one-shot timer with the time units left until it fires, `notifications` the
notifications emitted so far, oldest first. -/
structure ClientInstance (β : Type) where
  iface : String
  ifindex : Int
  uuid : String
  addr_family : Nat
  route_table : Nat
  route_metric : Nat
  timeout : Nat
  flags : Nat
  client_id : Option (List Nat)
  hostname : Option String
  state : NMDhcpState
  pid : Option Int
  watched : Bool
  timer : Option Nat
  ip_config : Option NMIPConfig
  options : Option Options
  backend : β
  notifications : List Notification
  deriving DecidableEq, Repr

/-- Modelled from the spec: the transition legality table of section 4.1, which
the missing nm_dhcp_client_set_state has to enforce.
UNKNOWN to BOUND, TIMEOUT, FAIL, TERMINATED; BOUND to BOUND, EXPIRE, FAIL, DONE,
TERMINATED; TIMEOUT, EXPIRE, FAIL, DONE to TERMINATED only; nothing out of
TERMINATED. -/
def transition_legal : NMDhcpState → NMDhcpState → Bool
  | NM_DHCP_STATE_UNKNOWN, NM_DHCP_STATE_BOUND => true
  | NM_DHCP_STATE_UNKNOWN, NM_DHCP_STATE_TIMEOUT => true
  | NM_DHCP_STATE_UNKNOWN, NM_DHCP_STATE_FAIL => true
  | NM_DHCP_STATE_UNKNOWN, NM_DHCP_STATE_TERMINATED => true
  | NM_DHCP_STATE_BOUND, NM_DHCP_STATE_BOUND => true
  | NM_DHCP_STATE_BOUND, NM_DHCP_STATE_EXPIRE => true
  | NM_DHCP_STATE_BOUND, NM_DHCP_STATE_FAIL => true
  | NM_DHCP_STATE_BOUND, NM_DHCP_STATE_DONE => true
  | NM_DHCP_STATE_BOUND, NM_DHCP_STATE_TERMINATED => true
  | NM_DHCP_STATE_TIMEOUT, NM_DHCP_STATE_TERMINATED => true
  | NM_DHCP_STATE_EXPIRE, NM_DHCP_STATE_TERMINATED => true
  | NM_DHCP_STATE_FAIL, NM_DHCP_STATE_TERMINATED => true
  | NM_DHCP_STATE_DONE, NM_DHCP_STATE_TERMINATED => true
  | _, _ => false

/-- Modelled from the spec: "only BOUND transitions carry ip_config/options; all
others carry neither" (section 4.1), the argument check of the missing
nm_dhcp_client_set_state. -/
def payload_ok (new_state : NMDhcpState) (ip_config : Option NMIPConfig)
    (options : Option Options) : Bool :=
  if new_state = NM_DHCP_STATE_BOUND then ip_config.isSome && options.isSome
  else ip_config.isNone && options.isNone

/-- Modelled from the spec: nm_dhcp_client_set_state, whose body in
nm-dhcp-client.c is missing (section 4.1 and 4.5).  A call that the legality
table does not allow, or whose payload does not fit the new state, is not a
transition and changes nothing.  A transition stores the new state, keeps the
IP configuration and the options only for BOUND, disarms the timer upon BOUND,
and emits one state-changed notification. -/
def nm_dhcp_client_set_state {β : Type} (self : ClientInstance β) (new_state : NMDhcpState)
    (ip_config : Option NMIPConfig) (options : Option Options) : ClientInstance β :=
  if transition_legal self.state new_state && payload_ok new_state ip_config options then
    { self with
      state := new_state
      timer := if new_state = NM_DHCP_STATE_BOUND then none else self.timer
      ip_config := ip_config
      options := options
      notifications := self.notifications ++ [Notification.state_changed new_state ip_config options] }
  else
    self

/-- Modelled from the spec: nm_dhcp_client_handle_event, whose body in
nm-dhcp-client.c is missing (section 4.4).  The event is dropped silently unless
`iface` is the interface of the instance and `pid` is its tracked helper pid.
Otherwise `reason` is mapped to a target state; for BOUND the options go through
the IP-configuration builder first.  The mapping of reasons to states and the
builder are not given by the specification and are arguments; the `gboolean`
result of the declaration, of which the specification says nothing, is left
out. -/
def nm_dhcp_client_handle_event {β : Type} (reason_to_state : String → NMDhcpState)
    (build_ip_config : Options → NMIPConfig) (self : ClientInstance β)
    (iface : String) (pid : Int) (options : Options) (reason : String) : ClientInstance β :=
  if iface ≠ self.iface then self
  else if self.pid ≠ some pid then self
  else if reason_to_state reason = NM_DHCP_STATE_BOUND then
    nm_dhcp_client_set_state self NM_DHCP_STATE_BOUND (some (build_ip_config options))
      (some options)
  else
    nm_dhcp_client_set_state self (reason_to_state reason) none none

/-- Modelled from the spec: nm_dhcp_client_stop, whose body in nm-dhcp-client.c is
missing (section 4.1 and 5).  On a TERMINATED instance it is a no-op; otherwise
it disarms the timer and the process watch, clears the tracked pid, asks the
backend to stop and transitions to TERMINATED. -/
def nm_dhcp_client_stop {β : Type} (klass : NMDhcpClientClass β) (self : ClientInstance β)
    (release : Bool) : ClientInstance β :=
  if self.state = NM_DHCP_STATE_TERMINATED then self
  else
    nm_dhcp_client_set_state
      { self with
        timer := none
        watched := false
        pid := none
        backend := klass.stop self.backend release }
      NM_DHCP_STATE_TERMINATED none none

/-- Modelled from the spec: nm_dhcp_client_start_timeout, whose body in
nm-dhcp-client.c is missing (section 4.5): arm the one-shot timer for the
configured duration; the infinite duration disarms timeout checking. -/
def nm_dhcp_client_start_timeout {β : Type} (self : ClientInstance β) : ClientInstance β :=
  if self.timeout = NM_DHCP_TIMEOUT_INFINITY then { self with timer := none }
  else { self with timer := some self.timeout }

/-- Modelled from the spec: the firing of the timer armed by
nm_dhcp_client_start_timeout (the callback in nm-dhcp-client.c is missing).  The
timer is one-shot; the firing asks for the TIMEOUT state through
nm_dhcp_client_set_state.  Without an armed timer nothing fires. -/
def timeout_fired {β : Type} (self : ClientInstance β) : ClientInstance β :=
  match self.timer with
  | none => self
  | some _ =>
    nm_dhcp_client_set_state { self with timer := none } NM_DHCP_STATE_TIMEOUT none none

/-- Modelled from the spec: `d` time units pass without any call into the
instance (section 4.5); the armed timer fires once its duration has passed. -/
def time_passes {β : Type} (self : ClientInstance β) (d : Nat) : ClientInstance β :=
  match self.timer with
  | none => self
  | some left => if left ≤ d then timeout_fired self else { self with timer := some (left - d) }

/-- A call of nm_dhcp_client_set_state or nm_dhcp_client_handle_event with its
arguments. -/
inductive StateCall where
  | set_state : NMDhcpState → Option NMIPConfig → Option Options → StateCall
  | handle_event : String → Int → Options → String → StateCall

/-- Perform one call of `StateCall` on the instance. -/
def StateCall.apply {β : Type} (reason_to_state : String → NMDhcpState)
    (build_ip_config : Options → NMIPConfig) (self : ClientInstance β) :
    StateCall → ClientInstance β
  | .set_state s ip opts => nm_dhcp_client_set_state self s ip opts
  | .handle_event iface pid opts reason =>
    nm_dhcp_client_handle_event reason_to_state build_ip_config self iface pid opts reason

/-- The operations on a started instance that advance or guard its lease state:
a state call, a new arming of the timer, the passing of time, a stop. -/
inductive ClientOp where
  | call : StateCall → ClientOp
  | start_timeout : ClientOp
  | time_passes : Nat → ClientOp
  | stop : Bool → ClientOp

/-- Perform one `ClientOp` on the instance. -/
def ClientOp.apply {β : Type} (klass : NMDhcpClientClass β)
    (reason_to_state : String → NMDhcpState) (build_ip_config : Options → NMIPConfig)
    (self : ClientInstance β) : ClientOp → ClientInstance β
  | .call c => c.apply reason_to_state build_ip_config self
  | .start_timeout => nm_dhcp_client_start_timeout self
  | .time_passes d => NM.time_passes self d
  | .stop release => nm_dhcp_client_stop klass self release

/-- The character `s[0]` of a C string; past the end of the list it is the
terminating NUL. -/
def cpeek (s : List Char) : Char := s.headD '\x00'

/-- Linux `EINVAL`. -/
def EINVAL : Nat := 22

/-- Linux `ERANGE`. -/
def ERANGE : Nat := 34

/-- GLib `G_MAXUINT64`. -/
def G_MAXUINT64 : Nat := 0xffffffffffffffff

/-- GLib `G_MAXINT64`. -/
def G_MAXINT64 : Int := 0x7fffffffffffffff

/-- GLib `G_MININT64`. -/
def G_MININT64 : Int := -0x8000000000000000

/-- GLib `g_ascii_isspace`: true for tab, newline, form feed, carriage return and
space, the characters of `NM_ASCII_SPACES "\t\n\f\r "` ("mirrors
g_ascii_isspace()", nm-macros-internal.h).  The vertical tab is not among them. -/
def g_ascii_isspace (c : Char) : Bool :=
  c = '\t' || c = '\n' || c = '\x0c' || c = '\r' || c = ' '

/-- The macro `nm_str_skip_leading_spaces` of nm-macros-internal.h on a non-NULL
string: `while (g_ascii_isspace (s[0])) s++`. -/
def nm_str_skip_leading_spaces : List Char → List Char
  | [] => []
  | c :: cs => if g_ascii_isspace c then nm_str_skip_leading_spaces cs else c :: cs

/-! ## GLib `g_ascii_strtoll` and `g_ascii_strtoull`

GLib documents both to behave like `strtoll()` and `strtoull()` in the C locale.
The model follows `g_parse_long_long` of GLib's gstrfuncs.c. -/

/-- `ISSPACE` of gstrfuncs.c, the `isspace()` of the C locale: space, form feed,
newline, carriage return, tab and vertical tab. -/
def ISSPACE (c : Char) : Bool :=
  c = ' ' || c = '\x0c' || c = '\n' || c = '\r' || c = '\t' || c = '\x0b'

/-- `ISALPHA` of gstrfuncs.c. -/
def ISALPHA (c : Char) : Bool :=
  ('A' ≤ c && c ≤ 'Z') || ('a' ≤ c && c ≤ 'z')

/-- `TOUPPER` of gstrfuncs.c. -/
def TOUPPER (c : Char) : Char :=
  if 'a' ≤ c && c ≤ 'z' then Char.ofNat (c.toNat - 'a'.toNat + 'A'.toNat) else c

/-- The value of a character as a digit, before the comparison with the base:
`c - '0'` for a decimal digit, `TOUPPER (c) - 'A' + 10` for a letter. -/
def digit_value (c : Char) : Option Nat :=
  if '0' ≤ c && c ≤ '9' then some (c.toNat - '0'.toNat)
  else if ISALPHA c then some ((TOUPPER c).toNat - 'A'.toNat + 10)
  else none

/-- `while (ISSPACE (*s)) ++s`. -/
def skip_ISSPACE : List Char → List Char
  | [] => []
  | c :: cs => if ISSPACE c then skip_ISSPACE cs else c :: cs

/-- The digit loop of `g_parse_long_long`: returns the accumulated `ui64`, the
`overflow` flag and the position `s` at which the loop stopped. -/
def parse_digits (base cutoff cutlim : Nat) : List Char → Nat → Bool → Nat × Bool × List Char
  | [], ui64, overflow => (ui64, overflow, [])
  | c :: cs, ui64, overflow =>
    match digit_value c with
    | none => (ui64, overflow, c :: cs)
    | some d =>
      if d ≥ base then (ui64, overflow, c :: cs)
      else if ui64 > cutoff || (ui64 = cutoff && d > cutlim) then
        parse_digits base cutoff cutlim cs ui64 true
      else
        parse_digits base cutoff cutlim cs (ui64 * base + d) overflow

/-- What `g_parse_long_long` hands back: the magnitude, the string at `*endptr`,
the `negative` flag and the value of `errno` afterwards. -/
structure ParseLongLong where
  value : Nat
  endptr : List Char
  negative : Bool
  errno : Nat
  deriving DecidableEq, Repr

/-- `g_parse_long_long` of gstrfuncs.c.  `errno` is the value of `errno` before
the call.  In the `noconv` case the test `save[-1]` is `X` and `save[-2]` is `0`
holds exactly when the hexadecimal mark was skipped, since white space and signs
are the only other characters that can stand before `save`. -/
def g_parse_long_long (nptr : List Char) (base : Nat) (errno : Nat) : ParseLongLong :=
  if base = 1 || base > 36 then
    { value := 0, endptr := nptr, negative := false, errno := EINVAL }
  else
    let s0 := skip_ISSPACE nptr
    if cpeek s0 = '\x00' then
      { value := 0, endptr := nptr, negative := false, errno := errno }
    else
      let negative := cpeek s0 = '-'
      let s1 := if cpeek s0 = '-' || cpeek s0 = '+' then s0.tail else s0
      let hex := cpeek s1 = '0' && (base = 0 || base = 16) && TOUPPER (cpeek s1.tail) = 'X'
      let base := if cpeek s1 = '0' then (if hex then 16 else if base = 0 then 8 else base)
        else if base = 0 then 10 else base
      let save := if hex then s1.tail.tail else s1
      let cutoff := G_MAXUINT64 / base
      let cutlim := G_MAXUINT64 % base
      let r := parse_digits base cutoff cutlim save 0 false
      if r.2.2.length = save.length then
        { value := 0, endptr := if hex then s1.tail else nptr, negative := negative,
          errno := errno }
      else if r.2.1 then
        { value := G_MAXUINT64, endptr := r.2.2, negative := negative, errno := ERANGE }
      else
        { value := r.1, endptr := r.2.2, negative := negative, errno := errno }

/-- GLib `g_ascii_strtoull`: `negative ? -result : result` in `guint64`.  Returns
the value, the string at `*endptr` and `errno`. -/
def g_ascii_strtoull (nptr : List Char) (base : Nat) (errno : Nat) : Nat × List Char × Nat :=
  let r := g_parse_long_long nptr base errno
  (if r.negative then (2 ^ 64 - r.value) % 2 ^ 64 else r.value, r.endptr, r.errno)

/-- GLib `g_ascii_strtoll`.  Returns the value, the string at `*endptr` and
`errno`. -/
def g_ascii_strtoll (nptr : List Char) (base : Nat) (errno : Nat) : Int × List Char × Nat :=
  let r := g_parse_long_long nptr base errno
  if r.negative && r.value > 2 ^ 63 then (G_MININT64, r.endptr, ERANGE)
  else if !r.negative && r.value > 2 ^ 63 - 1 then (G_MAXINT64, r.endptr, ERANGE)
  else if r.negative then (-(r.value : Int), r.endptr, r.errno)
  else ((r.value : Int), r.endptr, r.errno)

/-! ## nm-shared-utils.c: the strict integer parsers -/

/-- `_nm_utils_ascii_str_to_int64` of nm-shared-utils.c.  `str` is `none` for
NULL.  Returns the returned value and the value of `errno` on return. -/
def _nm_utils_ascii_str_to_int64 (str : Option (List Char)) (base : Nat)
    (min max fallback : Int) : Int × Nat :=
  match str with
  | none => (fallback, EINVAL)
  | some str =>
    let str := nm_str_skip_leading_spaces str
    if cpeek str = '\x00' then (fallback, EINVAL)
    else
      let r := g_ascii_strtoll str base 0
      if r.2.2 ≠ 0 then (fallback, r.2.2)
      else if cpeek r.2.1 ≠ '\x00' && cpeek (nm_str_skip_leading_spaces r.2.1) ≠ '\x00' then
        (fallback, EINVAL)
      else if r.1 > max || r.1 < min then (fallback, ERANGE)
      else (r.1, 0)

/-- `_nm_utils_ascii_str_to_uint64` of nm-shared-utils.c.  `str` is `none` for
NULL.  Returns the returned value and the value of `errno` on return. -/
def _nm_utils_ascii_str_to_uint64 (str : Option (List Char)) (base : Nat)
    (min max fallback : Nat) : Nat × Nat :=
  match str with
  | none => (fallback, EINVAL)
  | some str =>
    let str := nm_str_skip_leading_spaces str
    if cpeek str = '\x00' then (fallback, EINVAL)
    else
      let r := g_ascii_strtoull str base 0
      if r.2.2 ≠ 0 then (fallback, r.2.2)
      else if cpeek r.2.1 ≠ '\x00' && cpeek (nm_str_skip_leading_spaces r.2.1) ≠ '\x00' then
        (fallback, EINVAL)
      else if r.1 > max || r.1 < min then (fallback, ERANGE)
      else if r.1 ≠ 0 && cpeek str = '-' then (fallback, ERANGE)
      else (r.1, 0)

/-! ## nm-shared-utils.c: string buffers

A buffer is the list `mem` of its bytes; a pointer into it is an offset.  The
caller owns at least `len` bytes from `*buf` on, which is the hypothesis
`buf + len ≤ mem.length` of the theorems. -/

/-- The byte `mem[i]`. -/
def byte_at (mem : List Char) (i : Nat) : Char := mem.getD i '\x00'

/-- C `memchr (s, c, n)`: the offset of the first `c` among the first `n` bytes
of `s`, if there is one. -/
def memchr (s : List Char) (c : Char) : Nat → Option Nat
  | 0 => none
  | n + 1 =>
    match s with
    | [] => none
    | x :: xs => if x = c then some 0 else (memchr xs c n).map (· + 1)

/-- `nm_utils_strbuf_seek_end` of nm-shared-utils.c.  Takes the memory, `*buf`
and `*len`, and returns the memory, `*buf` and `*len` afterwards. -/
def nm_utils_strbuf_seek_end (mem : List Char) (buf len : Nat) : List Char × Nat × Nat :=
  if len ≤ 1 then
    if len = 1 && byte_at mem buf ≠ '\x00' then
      (mem.set (buf + len - 1) '\x00', buf + len, 0)
    else
      (mem, buf, len)
  else
    match memchr (mem.drop buf) '\x00' len with
    | some l => (mem, buf + l, len - l)
    | none => (mem.set (buf + len - 1) '\x00', buf + len, 0)

/-- The C string that starts at the beginning of `s`: the characters before the
first NUL. -/
def cstr (s : List Char) : List Char := s.takeWhile (· ≠ '\x00')

/-- C `strlen`. -/
def strlen (s : List Char) : Nat := (cstr s).length

/-- C `memcpy (&mem[dst], data, data.length)`. -/
def memcpy (mem : List Char) (dst : Nat) : List Char → List Char
  | [] => mem
  | c :: cs => memcpy (mem.set dst c) (dst + 1) cs

/-- GLib `g_strlcpy (&mem[dest], src, dest_size)`: copies at most
`dest_size - 1` characters of the C string `src` and terminates them with NUL
(nothing is written if `dest_size` is 0); returns the memory and `strlen (src)`. -/
def g_strlcpy (mem : List Char) (dest : Nat) (src : List Char) (dest_size : Nat) :
    List Char × Nat :=
  if dest_size = 0 then (mem, strlen src)
  else
    ((memcpy mem dest ((cstr src).take (dest_size - 1))).set
      (dest + min (strlen src) (dest_size - 1)) '\x00', strlen src)

/-- `nm_utils_strbuf_append_str` of nm-shared-utils.c.  Takes the memory, `*buf`,
`*len` and `str` (`none` for NULL); returns the memory, `*buf` and `*len`
afterwards. -/
def nm_utils_strbuf_append_str (mem : List Char) (buf len : Nat) (str : Option (List Char)) :
    List Char × Nat × Nat :=
  match len with
  | 0 => (mem, buf, len)
  | 1 =>
    if str.isNone || cpeek (str.getD []) = '\x00' then (mem.set buf '\x00', buf, len)
    else (mem.set buf '\x00', buf + 1, 0)
  | _ =>
    if str.isNone || cpeek (str.getD []) = '\x00' then (mem.set buf '\x00', buf, len)
    else
      let r := g_strlcpy mem buf (str.getD []) len
      if r.2 ≥ len then (r.1, buf + len, 0)
      else (r.1, buf + r.2, len - r.2)

/-- `nm_strquote` of nm-shared-utils.c.  `mem` is the memory from `buf` on, so
that `buf` is the offset 0; `str` is `none` for NULL.  Returns the memory
afterwards; the returned pointer is `buf` itself. -/
def nm_strquote (mem : List Char) (buf_len : Nat) (str : Option (List Char)) : List Char :=
  match str with
  | none => (nm_utils_strbuf_append_str mem 0 buf_len (some "(null)".toList)).1
  | some s =>
    if buf_len ≤ 2 then
      match buf_len with
      | 2 => (mem.set 0 '^').set 1 '\x00'
      | 1 => mem.set 0 '\x00'
      | _ => mem
    else
      let r := nm_utils_strbuf_append_str (mem.set 0 '"') 1 (buf_len - 1) (some s)
      if r.2.2 ≤ 1 then
        match r.2.2 with
        | 1 => r.1.set (r.2.1 - 1) '^'
        | 0 => r.1.set (r.2.1 - 2) '^'
        | _ => r.1
      else
        (r.1.set r.2.1 '"').set (r.2.1 + 1) '\x00'

/-! ## nm-shared-utils.c: splitting strings -/

/-- `NM_ASCII_SPACES "\t\n\f\r "` of nm-macros-internal.h. -/
def NM_ASCII_SPACES : List Char := ['\t', '\n', '\x0c', '\r', ' ']

/-- The bits of `NMUtilsStrsplitSetFlags` that nm_utils_strsplit_set_full tests
with `NM_FLAGS_HAS`.  The enum is declared in nm-shared-utils.h, which is not
included, so a value of the flags is given by the four tests. -/
structure NMUtilsStrsplitSetFlags where
  NM_UTILS_STRSPLIT_SET_FLAGS_PRESERVE_EMPTY : Bool
  NM_UTILS_STRSPLIT_SET_FLAGS_ALLOW_ESCAPING : Bool
  NM_UTILS_STRSPLIT_SET_FLAGS_STRSTRIP : Bool
  NM_UTILS_STRSPLIT_SET_FLAGS_ESCAPED : Bool
  deriving DecidableEq, Repr

/-- `NM_UTILS_STRSPLIT_SET_FLAGS_NONE`: no flag set. -/
def NM_UTILS_STRSPLIT_SET_FLAGS_NONE : NMUtilsStrsplitSetFlags :=
  { NM_UTILS_STRSPLIT_SET_FLAGS_PRESERVE_EMPTY := false
    NM_UTILS_STRSPLIT_SET_FLAGS_ALLOW_ESCAPING := false
    NM_UTILS_STRSPLIT_SET_FLAGS_STRSTRIP := false
    NM_UTILS_STRSPLIT_SET_FLAGS_ESCAPED := false }

/-- `_char_lookup_table_init`: the table has an entry for every character of the
C string `candidates`, hence never one for NUL; `_char_lookup_has (lookup, ch)`
is the application of the table to `ch`. -/
def _char_lookup_table_init (candidates : List Char) : Char → Bool :=
  fun ch => (cstr candidates).contains ch

/-- The macro `_char_is_escaped (str_start, str_cur)`: the number of backslashes
that stand directly before `str_cur` is odd.  The argument holds the characters
from `str_start` up to `str_cur`, the last one first. -/
def _char_is_escaped (before : List Char) : Bool :=
  (before.takeWhile (· = '\\')).length % 2 ≠ 0

/-- The first loop of nm_utils_strsplit_set_full, which counts `num_tokens`.
`before` holds the characters already passed, the last one first; `skipping`
tells that the loop over consecutive delimiters (taken without
PRESERVE_EMPTY) is running. -/
def strsplit_count (lookup : Char → Bool) (f_allow_escaping f_preserve_empty : Bool) :
    List Char → List Char → Bool → Nat → Nat
  | [], _, _, num_tokens => num_tokens
  | c :: cs, before, false, num_tokens =>
    if lookup c then
      if f_allow_escaping && _char_is_escaped before then
        strsplit_count lookup f_allow_escaping f_preserve_empty cs (c :: before) false num_tokens
      else if f_preserve_empty then
        strsplit_count lookup f_allow_escaping f_preserve_empty cs (c :: before) false
          (num_tokens + 1)
      else
        strsplit_count lookup f_allow_escaping f_preserve_empty cs (c :: before) true num_tokens
    else
      strsplit_count lookup f_allow_escaping f_preserve_empty cs (c :: before) false num_tokens
  | c :: cs, before, true, num_tokens =>
    if lookup c then
      strsplit_count lookup f_allow_escaping f_preserve_empty cs (c :: before) true num_tokens
    else
      strsplit_count lookup f_allow_escaping f_preserve_empty cs (c :: before) false
        (num_tokens + 1)

/-- The second loop of nm_utils_strsplit_set_full, which cuts the copy of the
string into the words that `ptr` points to.  `cur` holds the characters of the
word that is being scanned; `skipping` tells that the loop over consecutive
delimiters (taken without PRESERVE_EMPTY) is running, after which the next
word starts at the first other character.  A backslash takes the character
behind it along when escaping is allowed. -/
def strsplit_words (lookup : Char → Bool) (f_allow_escaping f_preserve_empty : Bool) :
    List Char → List Char → Bool → List (List Char)
  | [], cur, false => [cur]
  | [], _, true => []
  | c :: cs, cur, false =>
    if lookup c then
      cur :: strsplit_words lookup f_allow_escaping f_preserve_empty cs [] (!f_preserve_empty)
    else if c = '\\' && f_allow_escaping then
      match cs with
      | [] => [cur ++ [c]]
      | c2 :: cs2 =>
        strsplit_words lookup f_allow_escaping f_preserve_empty cs2 (cur ++ [c, c2]) false
    else
      strsplit_words lookup f_allow_escaping f_preserve_empty cs (cur ++ [c]) false
  | c :: cs, _, true =>
    if lookup c then
      strsplit_words lookup f_allow_escaping f_preserve_empty cs [] true
    else if c = '\\' && f_allow_escaping then
      match cs with
      | [] => [[c]]
      | c2 :: cs2 => strsplit_words lookup f_allow_escaping f_preserve_empty cs2 [c, c2] false
    else
      strsplit_words lookup f_allow_escaping f_preserve_empty cs [c] false

/-- The loop of the STRSTRIP step that cuts trailing white space off a word.
The word is given with its last character first; its first character is never
cut (`s_last > s`). -/
def strstrip_trailing (f_allow_escaping : Bool) : List Char → List Char
  | [] => []
  | [c] => [c]
  | c :: c2 :: rest =>
    if g_ascii_isspace c && (!f_allow_escaping || !_char_is_escaped (c2 :: rest)) then
      strstrip_trailing f_allow_escaping (c2 :: rest)
    else
      c :: c2 :: rest

/-- The STRSTRIP step on one word: skip the leading white space, then cut the
trailing white space. -/
def strstrip_word (f_allow_escaping : Bool) (word : List Char) : List Char :=
  (strstrip_trailing f_allow_escaping (nm_str_skip_leading_spaces word).reverse).reverse

/-- The ESCAPED step on one word: a backslash in front of a character of the
table is dropped. -/
def strsplit_unescape (lookup : Char → Bool) : List Char → List Char
  | [] => []
  | [c] => [c]
  | c :: c2 :: cs =>
    if c = '\\' && lookup c2 then c2 :: strsplit_unescape lookup cs
    else c :: strsplit_unescape lookup (c2 :: cs)

/-- `nm_utils_strsplit_set_full` of nm-shared-utils.c.  `str` and `delimiters`
are `none` for NULL; the result is `none` for NULL and else the words of the
strv array.  NULL delimiters (where the debug build asserts) stand for the
default `" \t\n"`. -/
def nm_utils_strsplit_set_full (str delimiters : Option (List Char))
    (flags : NMUtilsStrsplitSetFlags) : Option (List (List Char)) :=
  let f_escaped := flags.NM_UTILS_STRSPLIT_SET_FLAGS_ESCAPED
  let f_allow_escaping := f_escaped || flags.NM_UTILS_STRSPLIT_SET_FLAGS_ALLOW_ESCAPING
  let f_preserve_empty := flags.NM_UTILS_STRSPLIT_SET_FLAGS_PRESERVE_EMPTY
  let f_strstrip := flags.NM_UTILS_STRSPLIT_SET_FLAGS_STRSTRIP
  match str with
  | none => none
  | some str =>
    let ch_lookup := _char_lookup_table_init (delimiters.getD [' ', '\t', '\n'])
    let str := if !f_preserve_empty then (cstr str).dropWhile ch_lookup else cstr str
    if cpeek str = '\x00' then none
    else
      let ptr := strsplit_words ch_lookup f_allow_escaping f_preserve_empty str [] false
      let ptr :=
        if f_strstrip then
          (ptr.map (strstrip_word f_allow_escaping)).filter
            (fun s => f_preserve_empty || cpeek s ≠ '\x00')
        else ptr
      if f_strstrip && ptr.isEmpty then none
      else if f_escaped then
        some (ptr.map (strsplit_unescape (fun ch =>
          ch_lookup ch || ch = '\\' || (f_strstrip && NM_ASCII_SPACES.contains ch))))
      else some ptr

/-- C `strcmp`: the difference of the first two characters that differ, as
`unsigned char`, and 0 if the strings end together. -/
def strcmp : List Char → List Char → Int
  | [], [] => 0
  | [], b :: _ => -(b.toNat : Int)
  | a :: _, [] => (a.toNat : Int)
  | a :: as, b :: bs =>
    if a ≠ b then (a.toNat : Int) - (b.toNat : Int)
    else if a = '\x00' then 0
    else strcmp as bs

/-- A `for` loop over the entries of a string list that returns the index of the
first entry for which `hit` holds, and -1 behind the last entry.  `i` is the
index of the first entry of the list. -/
def strv_scan (hit : Option (List Char) → Bool) : List (Option (List Char)) → Int → Int
  | [], _ => -1
  | x :: xs, i => if hit x then i else strv_scan hit xs (i + 1)

/-- `nm_utils_strv_find_first` of nm-shared-utils.c.  `list` is `none` for NULL
and else the entries of the array, each `none` for NULL; `needle` is `none` for
NULL.  With a positive `len` the loops run over the first `len` entries, with a
negative `len` over the entries before the first NULL entry. -/
def nm_utils_strv_find_first (list : Option (List (Option (List Char)))) (len : Int)
    (needle : Option (List Char)) : Int :=
  if len > 0 then
    match list with
    | none => -1
    | some l =>
      match needle with
      | none => strv_scan (fun x => x.isNone) (l.take len.toNat) 0
      | some nd =>
        strv_scan (fun x => match x with
          | some s => strcmp nd s == 0
          | none => false) (l.take len.toNat) 0
  else if len < 0 then
    match needle with
    | none => -1
    | some nd =>
      match list with
      | none => -1
      | some l =>
        strv_scan (fun x => match x with
          | some s => strcmp nd s == 0
          | none => false) (l.takeWhile (·.isSome)) 0
  else -1

/-- The documented result of a search for the first occurrence: `r` is -1 and no
entry of `l` has the property, or `r` is the index of an entry that has it while
no entry before has. -/
def first_index_or_minus_one (p : Option (List Char) → Prop) (l : List (Option (List Char)))
    (r : Int) : Prop :=
  (r = -1 ∧ ∀ x ∈ l, ¬ p x) ∨
  (∃ k : Nat, r = (k : Int) ∧ (∃ x, l[k]? = some x ∧ p x) ∧
    ∀ j, j < k → ∀ y, l[j]? = some y → ¬ p y)

/-! ## devices/ovs/nm-device-ovs-port.c: the ovsdb callbacks -/

/-- What a callback does to the slave device that it got as `user_data`, in
order.  `nm_device_state_changed` carries the new state and the reason. -/
inductive SlaveCall where
  | nm_log_warn : String → SlaveCall
  | nm_device_state_changed : Int → Int → SlaveCall
  | g_object_unref : SlaveCall
  deriving DecidableEq, Repr

/-- `add_iface_cb` of nm-device-ovs-port.c.  `error` is `none` for NULL, `iface`
is `nm_device_get_iface (slave)`.  The enumerators
`NM_UTILS_ERROR_CANCELLED_DISPOSING`, `NM_DEVICE_STATE_FAILED` and
`NM_DEVICE_STATE_REASON_OVSDB_FAILED` are declared in headers that are not
included, so their values are arguments. -/
def add_iface_cb (NM_UTILS_ERROR_CANCELLED_DISPOSING NM_DEVICE_STATE_FAILED
    NM_DEVICE_STATE_REASON_OVSDB_FAILED : Int) (error : Option GError) (iface : String) :
    List SlaveCall :=
  (if error.isSome
      && !g_error_matches error NM_UTILS_ERROR NM_UTILS_ERROR_CANCELLED_DISPOSING then
    [SlaveCall.nm_log_warn ("device " ++ iface ++ " could not be added to a ovs port: "
        ++ (error.map (·.message)).getD ""),
     SlaveCall.nm_device_state_changed NM_DEVICE_STATE_FAILED
        NM_DEVICE_STATE_REASON_OVSDB_FAILED]
   else []) ++ [SlaveCall.g_object_unref]

/-- `del_iface_cb` of nm-device-ovs-port.c, with the arguments of `add_iface_cb`. -/
def del_iface_cb (NM_UTILS_ERROR_CANCELLED_DISPOSING NM_DEVICE_STATE_FAILED
    NM_DEVICE_STATE_REASON_OVSDB_FAILED : Int) (error : Option GError) (iface : String) :
    List SlaveCall :=
  (if error.isSome
      && !g_error_matches error NM_UTILS_ERROR NM_UTILS_ERROR_CANCELLED_DISPOSING then
    [SlaveCall.nm_log_warn ("device " ++ iface ++ " could not be removed from a ovs port: "
        ++ (error.map (·.message)).getD ""),
     SlaveCall.nm_device_state_changed NM_DEVICE_STATE_FAILED
        NM_DEVICE_STATE_REASON_OVSDB_FAILED]
   else []) ++ [SlaveCall.g_object_unref]

/-! ## nm-shared-utils.c: binary search -/

/-- The bitwise inverse `~i` of a `gssize`. -/
def bit_inverse (i : Int) : Int := -i - 1

/-- The list is sorted as far as the comparison with `needle` can tell: behind
an element that does not compare less no element compares less, and behind an
element that compares greater every element compares greater.  Every list that
is sorted by a comparison function has this property for every needle (see
`sorted_for_of_sorted`). -/
def sorted_for {α ν : Type} (cmpfcn : α → ν → Int) (needle : ν) (list : List α) : Prop :=
  list.Pairwise (fun a b =>
    (cmpfcn b needle < 0 → cmpfcn a needle < 0) ∧ (0 < cmpfcn a needle → 0 < cmpfcn b needle))

/-- The `while (imin <= imax)` loop of nm_utils_array_find_binary_search.  The
first argument bounds the number of rounds; the result is `none` if the bound
is used up or an element outside of the list is read. -/
def array_find_loop {α ν : Type} (list : List α) (needle : ν) (cmpfcn : α → ν → Int) :
    Nat → Int → Int → Option Int
  | 0, imin, imax => if imin ≤ imax then none else some (bit_inverse imin)
  | rounds + 1, imin, imax =>
    if imin ≤ imax then
      match list[(imin + (imax - imin) / 2).toNat]? with
      | none => none
      | some x =>
        if cmpfcn x needle = 0 then some (imin + (imax - imin) / 2)
        else if cmpfcn x needle < 0 then
          array_find_loop list needle cmpfcn rounds (imin + (imax - imin) / 2 + 1) imax
        else
          array_find_loop list needle cmpfcn rounds imin (imin + (imax - imin) / 2 - 1)
    else some (bit_inverse imin)

/-- `nm_utils_array_find_binary_search` of nm-shared-utils.c.  The array of
`len` elements of `elem_size` bytes is the list of its elements; `cmpfcn`
includes the `user_data`.  The loop needs at most `len` rounds. -/
def nm_utils_array_find_binary_search {α ν : Type} (list : List α) (elem_size : Nat)
    (needle : ν) (cmpfcn : α → ν → Int) : Option Int :=
  if elem_size = 0 then some (bit_inverse 0)
  else if list.length = 0 then some (bit_inverse 0)
  else array_find_loop list needle cmpfcn list.length 0 ((list.length : Int) - 1)

/-- The loop of nm_utils_ptrarray_find_binary_search that looks for the first
matching index; returns `i2min` at the end of the loop. -/
def ptrarray_first_loop {α ν : Type} (list : List α) (needle : ν) (cmpfcn : α → ν → Int) :
    Nat → Int → Int → Option Int
  | 0, i2min, i2max => if i2min ≤ i2max then none else some i2min
  | rounds + 1, i2min, i2max =>
    if i2min ≤ i2max then
      match list[(i2min + (i2max - i2min) / 2).toNat]? with
      | none => none
      | some x =>
        if cmpfcn x needle = 0 then
          ptrarray_first_loop list needle cmpfcn rounds i2min (i2min + (i2max - i2min) / 2 - 1)
        else
          ptrarray_first_loop list needle cmpfcn rounds (i2min + (i2max - i2min) / 2 + 1) i2max
    else some i2min

/-- The loop of nm_utils_ptrarray_find_binary_search that looks for the last
matching index; returns `i2min` at the end of the loop. -/
def ptrarray_last_loop {α ν : Type} (list : List α) (needle : ν) (cmpfcn : α → ν → Int) :
    Nat → Int → Int → Option Int
  | 0, i2min, i2max => if i2min ≤ i2max then none else some i2min
  | rounds + 1, i2min, i2max =>
    if i2min ≤ i2max then
      match list[(i2min + (i2max - i2min) / 2).toNat]? with
      | none => none
      | some x =>
        if cmpfcn x needle = 0 then
          ptrarray_last_loop list needle cmpfcn rounds (i2min + (i2max - i2min) / 2 + 1) i2max
        else
          ptrarray_last_loop list needle cmpfcn rounds i2min (i2min + (i2max - i2min) / 2 - 1)
    else some i2min

/-- The outer loop of nm_utils_ptrarray_find_binary_search and the statements
behind it.  `out_idx_first` and `out_idx_last` tell whether the pointers are
non-NULL; the result holds the returned index and the values stored through
the two pointers (`none` where nothing is stored). -/
def ptrarray_find_loop {α ν : Type} (list : List α) (needle : ν) (cmpfcn : α → ν → Int)
    (out_idx_first out_idx_last : Bool) : Nat → Int → Int → Option (Int × Option Int × Option Int)
  | 0, imin, imax =>
    if imin ≤ imax then none
    else some (bit_inverse imin,
      if out_idx_first then some (bit_inverse imin) else none,
      if out_idx_last then some (bit_inverse imin) else none)
  | rounds + 1, imin, imax =>
    if imin ≤ imax then
      match list[(imin + (imax - imin) / 2).toNat]? with
      | none => none
      | some x =>
        if cmpfcn x needle = 0 then
          match
            (if out_idx_first then
              (ptrarray_first_loop list needle cmpfcn (list.length + 1) imin
                (imin + (imax - imin) / 2 + 1)).map some
             else some none),
            (if out_idx_last then
              (ptrarray_last_loop list needle cmpfcn (list.length + 1)
                (imin + (imax - imin) / 2 + 1) imax).map (fun i2min => some (i2min - 1))
             else some none) with
          | some first, some last => some (imin + (imax - imin) / 2, first, last)
          | _, _ => none
        else if cmpfcn x needle < 0 then
          ptrarray_find_loop list needle cmpfcn out_idx_first out_idx_last rounds
            (imin + (imax - imin) / 2 + 1) imax
        else
          ptrarray_find_loop list needle cmpfcn out_idx_first out_idx_last rounds imin
            (imin + (imax - imin) / 2 - 1)
    else some (bit_inverse imin,
      if out_idx_first then some (bit_inverse imin) else none,
      if out_idx_last then some (bit_inverse imin) else none)

/-- `nm_utils_ptrarray_find_binary_search` of nm-shared-utils.c.  The array is
the list of its `len` pointers; `cmpfcn` includes the `user_data`. -/
def nm_utils_ptrarray_find_binary_search {α ν : Type} (list : List α) (needle : ν)
    (cmpfcn : α → ν → Int) (out_idx_first out_idx_last : Bool) :
    Option (Int × Option Int × Option Int) :=
  if list.length > 0 then
    ptrarray_find_loop list needle cmpfcn out_idx_first out_idx_last list.length 0
      ((list.length : Int) - 1)
  else some (bit_inverse 0,
    if out_idx_first then some (bit_inverse 0) else none,
    if out_idx_last then some (bit_inverse 0) else none)

/-! ## libnm/nm-dbus-client.c: the event queue and teardown -/

/-- `EventData` of nm-dbus-client.c without its list link: the function pointer
`handle_fcn` (as a number) and the `user_data` pointer. -/
structure EventData where
  handle_fcn : Nat
  user_data : Nat
  deriving DecidableEq, Repr

/-- `struct _NMDBusClient` of nm-dbus-client.c.  `event_lst_head` is the list of
the events linked to the head, first entry first; pointers to objects of other
libraries are numbers, `none` is NULL.  The mutex `event_lock` has no content
here. -/
structure NMDBusClient where
  callback_table : Nat
  callback_user_data : Nat
  event_lst_head : List EventData
  caller_context : Nat
  intern_context : Nat
  dbus_connection : Nat
  i_name_owner_get_cancellable : Option Nat
  i_name_owner : Option (List Char)
  name_owner_changed_id : Nat
  deriving DecidableEq, Repr

/-- The calls that the functions of nm-dbus-client.c make on events, on GLib
objects and on helpers of other files, in the order of the trace.
`handle_fcn fcn user_data` is the call `e->handle_fcn (self, e->user_data)`;
`nm_clear_g_dbus_connection_signal connection id` is the call with the
connection and the address of an id that holds `id`; `g_assertion_message` is
the failure of a `g_assert`, which ends the program. -/
inductive DBusCall where
  | g_return_if_fail_warning : DBusCall
  | g_assertion_message : DBusCall
  | g_slice_new_EventData : DBusCall
  | g_mutex_lock : DBusCall
  | g_mutex_unlock : DBusCall
  | c_list_link_tail : EventData → DBusCall
  | c_list_unlink : EventData → DBusCall
  | handle_fcn : Nat → Nat → DBusCall
  | g_slice_free_EventData : EventData → DBusCall
  | g_cancellable_cancel : Nat → DBusCall
  | g_object_unref : Nat → DBusCall
  | nm_clear_g_dbus_connection_signal : Nat → Nat → DBusCall
  | g_main_context_unref : Nat → DBusCall
  | g_mutex_clear : DBusCall
  | g_slice_free_NMDBusClient : DBusCall
  deriving DecidableEq, Repr

/-- `nm_assert (cond)` of nm-macros-internal.h: with `NM_MORE_ASSERTS` it is
`g_assert (cond)`, without it nothing is tested.  The result tells whether the
program goes on. -/
def nm_assert (NM_MORE_ASSERTS : Bool) (cond : Bool) : Bool :=
  if NM_MORE_ASSERTS then cond else true

/-- `c_list_is_empty` of the c-list library on the list of linked entries. -/
def c_list_is_empty (list : List EventData) : Bool := list.isEmpty

/-- `c_list_first_entry` of the c-list library: the first linked entry or
NULL. -/
def c_list_first_entry (list : List EventData) : Option EventData := list.head?

/-- `NM_IS_DBUS_CLIENT` of nm-dbus-client.c.  `G_IS_DBUS_CONNECTION` is the type
check of GIO on a pointer.  The result is `none` if the assertion fails, else
`!!self`. -/
def NM_IS_DBUS_CLIENT (NM_MORE_ASSERTS : Bool) (G_IS_DBUS_CONNECTION : Nat → Bool)
    (self : Option NMDBusClient) : Option Bool :=
  if nm_assert NM_MORE_ASSERTS
      (match self with
       | none => true
       | some s => G_IS_DBUS_CONNECTION s.dbus_connection) then
    some self.isSome
  else none

/-- `_event_queue` of nm-dbus-client.c: the new contents of `*self` and the
calls made. -/
def _event_queue (self : NMDBusClient) (handle_fcn : Nat) (user_data : Nat) :
    NMDBusClient × List DBusCall :=
  let e : EventData := { handle_fcn := handle_fcn, user_data := user_data }
  ({ self with event_lst_head := self.event_lst_head ++ [e] },
   [DBusCall.g_slice_new_EventData, DBusCall.g_mutex_lock, DBusCall.c_list_link_tail e,
    DBusCall.g_mutex_unlock])

/-- `_event_dequeue_and_handle` of nm-dbus-client.c.  `run_handler fcn self
user_data` is what the function behind the pointer `fcn` leaves in `*self`.  The
result is the returned boolean, the new contents of `*self` and the calls
made. -/
def _event_dequeue_and_handle (run_handler : Nat → NMDBusClient → Nat → NMDBusClient)
    (self : NMDBusClient) : Bool × NMDBusClient × List DBusCall :=
  match c_list_first_entry self.event_lst_head with
  | none => (false, self, [DBusCall.g_mutex_lock, DBusCall.g_mutex_unlock])
  | some e =>
    let self1 := { self with event_lst_head := self.event_lst_head.tail }
    (true, run_handler e.handle_fcn self1 e.user_data,
     [DBusCall.g_mutex_lock, DBusCall.c_list_unlink e, DBusCall.g_mutex_unlock,
      DBusCall.handle_fcn e.handle_fcn e.user_data, DBusCall.g_slice_free_EventData e])

/-- `nm_clear_g_cancellable` of nm-macros-internal.h.  The argument is the
pointer to the pointer (`none` is a NULL argument, `some none` a pointer to
NULL); the result is what the argument points to afterwards, the calls made and
the returned boolean. -/
def nm_clear_g_cancellable (cancellable : Option (Option Nat)) :
    Option (Option Nat) × List DBusCall × Bool :=
  match cancellable with
  | some (some v) =>
    (some none, [DBusCall.g_cancellable_cancel v, DBusCall.g_object_unref v], true)
  | _ => (cancellable, [], false)

/-- The end of a run of `nm_dbus_client_free`: the calls made, the contents of
`*self` when the function ends (`none` for a NULL `self`), and whether an
assertion ended the program. -/
structure DBusClientFreeResult where
  calls : List DBusCall
  self : Option NMDBusClient
  aborted : Bool
  deriving DecidableEq, Repr

/-- `nm_dbus_client_free` of nm-dbus-client.c.  `NM_MORE_ASSERTS` and
`G_IS_DBUS_CONNECTION` are as in `NM_IS_DBUS_CLIENT`;
`nm_clear_g_dbus_connection_signal` (nm-dbus-aux.h) is called with the
connection and the address of `name_owner_changed_id`, and `signal_id_cleared
connection id` is the value it leaves there.  A failing `g_return_if_fail` logs
a warning and returns. -/
def nm_dbus_client_free (NM_MORE_ASSERTS : Bool) (G_IS_DBUS_CONNECTION : Nat → Bool)
    (signal_id_cleared : Nat → Nat → Nat) (self : Option NMDBusClient) :
    DBusClientFreeResult :=
  match NM_IS_DBUS_CLIENT NM_MORE_ASSERTS G_IS_DBUS_CONNECTION self, self with
  | none, _ => { calls := [DBusCall.g_assertion_message], self := self, aborted := true }
  | some true, some s =>
    if nm_assert NM_MORE_ASSERTS (c_list_is_empty s.event_lst_head) then
      let cleared := nm_clear_g_cancellable (some s.i_name_owner_get_cancellable)
      let s1 := { s with i_name_owner_get_cancellable := cleared.1.getD none }
      let s2 := { s1 with
        name_owner_changed_id := signal_id_cleared s1.dbus_connection s1.name_owner_changed_id }
      { calls := cleared.2.1 ++
          [DBusCall.nm_clear_g_dbus_connection_signal s1.dbus_connection s1.name_owner_changed_id,
           DBusCall.g_object_unref s2.dbus_connection,
           DBusCall.g_main_context_unref s2.caller_context,
           DBusCall.g_main_context_unref s2.intern_context,
           DBusCall.g_mutex_clear,
           DBusCall.g_slice_free_NMDBusClient],
        self := some s2,
        aborted := false }
    else { calls := [DBusCall.g_assertion_message], self := some s, aborted := true }
  | some _, _ => { calls := [DBusCall.g_return_if_fail_warning], self := self, aborted := false }

/-! ## Example values -/

/-- A backend without private data whose operations all succeed. -/
def unit_backend : NMDhcpClientClass Unit where
  ip4_start := fun _ _ _ => .ok ()
  accept := fun _ => .ok ()
  decline := fun _ _ => .ok ()
  ip6_start := fun _ _ _ _ _ => .ok ()
  stop := fun _ _ => ()
  get_duid := fun _ => none

/-- A mapping of helper reasons to lease states. -/
def example_reason_to_state (reason : String) : NMDhcpState :=
  if reason = "bound" then NM_DHCP_STATE_BOUND
  else if reason = "timeout" then NM_DHCP_STATE_TIMEOUT
  else if reason = "expire" then NM_DHCP_STATE_EXPIRE
  else if reason = "end" then NM_DHCP_STATE_DONE
  else if reason = "fail" then NM_DHCP_STATE_FAIL
  else NM_DHCP_STATE_UNKNOWN

/-- An IP-configuration builder that keeps the options as they are. -/
def example_build_ip_config (options : Options) : NMIPConfig := { entries := options }

/-- A freshly constructed IPv4 instance on eth0 with the default timeout and a
helper process 4711. -/
def example_client : ClientInstance Unit where
  iface := "eth0"
  ifindex := 2
  uuid := "c0ffee"
  addr_family := 4
  route_table := 254
  route_metric := 100
  timeout := NM_DHCP_TIMEOUT_DEFAULT
  flags := 0
  client_id := none
  hostname := none
  state := NM_DHCP_STATE_UNKNOWN
  pid := some 4711
  watched := true
  timer := none
  ip_config := none
  options := none
  backend := ()
  notifications := []

/-- The example instance after it was stopped. -/
def example_terminated : ClientInstance Unit :=
  { example_client with
    state := NM_DHCP_STATE_TERMINATED
    pid := none
    watched := false
    notifications := [Notification.state_changed NM_DHCP_STATE_TERMINATED none none] }

/-- A client on connection 7 that waits for the name owner, with no event
queued. -/
def example_dbus_client : NMDBusClient where
  callback_table := 1
  callback_user_data := 2
  event_lst_head := []
  caller_context := 3
  intern_context := 4
  dbus_connection := 7
  i_name_owner_get_cancellable := some 9
  i_name_owner := none
  name_owner_changed_id := 5

/-- The client `example_dbus_client` after two events were queued. -/
def example_dbus_client_queued : NMDBusClient :=
  (_event_queue (_event_queue example_dbus_client 100 11).1 200 12).1

/-- C1: for every instance name, nm_utils_error_set_cancelled produces an error
with domain NM_UTILS_ERROR and code NM_UTILS_ERROR_CANCELLED_DISPOSING when
is_disposing is TRUE, and one with domain G_IO_ERROR and code
G_IO_ERROR_CANCELLED when it is FALSE.  nm_utils_error_is_cancelled with
consider_is_disposing = FALSE is TRUE for the generic cancellation and FALSE for
the disposal-time one; with consider_is_disposing = TRUE it is TRUE for both. -/
theorem cancelled_errors_distinguishable (NM_UTILS_ERROR_CANCELLED_DISPOSING : Int)
    (instance_name : Option String) :
    ∃ e_disposing e_generic : GError,
      nm_utils_error_set_cancelled NM_UTILS_ERROR_CANCELLED_DISPOSING .empty true instance_name
        = .set e_disposing ∧
      nm_utils_error_set_cancelled NM_UTILS_ERROR_CANCELLED_DISPOSING .empty false instance_name
        = .set e_generic ∧
      e_disposing.domain = NM_UTILS_ERROR ∧
      e_disposing.code = NM_UTILS_ERROR_CANCELLED_DISPOSING ∧
      e_generic.domain = G_IO_ERROR ∧
      e_generic.code = G_IO_ERROR_CANCELLED ∧
      nm_utils_error_is_cancelled NM_UTILS_ERROR_CANCELLED_DISPOSING (some e_generic) false = true ∧
      nm_utils_error_is_cancelled NM_UTILS_ERROR_CANCELLED_DISPOSING (some e_disposing) false = false ∧
      nm_utils_error_is_cancelled NM_UTILS_ERROR_CANCELLED_DISPOSING (some e_generic) true = true ∧
      nm_utils_error_is_cancelled NM_UTILS_ERROR_CANCELLED_DISPOSING (some e_disposing) true = true := by
  have hne : NM_UTILS_ERROR ≠ G_IO_ERROR := by decide
  refine ⟨_, _, rfl, rfl, rfl, rfl, rfl, rfl, ?_, ?_, ?_, ?_⟩
  · simp [nm_utils_error_is_cancelled]
  · simp [nm_utils_error_is_cancelled, hne]
  · simp [nm_utils_error_is_cancelled]
  · simp [nm_utils_error_is_cancelled, hne]

/-! ## Theorems: constants and lease states -/

/-- C6: the default DHCP timeout NM_DHCP_TIMEOUT_DEFAULT is 45, the sentinel
NM_DHCP_TIMEOUT_INFINITY is the largest signed 32-bit value 2147483647, and the
two differ. -/
theorem dhcp_timeout_constants :
    NM_DHCP_TIMEOUT_DEFAULT = 45 ∧
    NM_DHCP_TIMEOUT_INFINITY = 2147483647 ∧
    NM_DHCP_TIMEOUT_INFINITY = 2 ^ 31 - 1 ∧
    NM_DHCP_TIMEOUT_INFINITY ≠ NM_DHCP_TIMEOUT_DEFAULT := by
  refine ⟨rfl, rfl, ?_, ?_⟩ <;> simp [NM_DHCP_TIMEOUT_INFINITY, NM_DHCP_TIMEOUT_DEFAULT, G_MAXINT32]

/-- C7: NMDhcpState has exactly the seven pairwise distinct states UNKNOWN,
BOUND, TIMEOUT, EXPIRE, FAIL, DONE and TERMINATED (every state is one of them,
and their integer values are pairwise different); UNKNOWN is the zero value and
NM_DHCP_STATE_MAX equals TERMINATED. -/
theorem dhcp_state_enumeration :
    (∀ s : NMDhcpState,
      s ∈ [NM_DHCP_STATE_UNKNOWN, NM_DHCP_STATE_BOUND, NM_DHCP_STATE_TIMEOUT,
           NM_DHCP_STATE_EXPIRE, NM_DHCP_STATE_FAIL, NM_DHCP_STATE_DONE,
           NM_DHCP_STATE_TERMINATED]) ∧
    [NM_DHCP_STATE_UNKNOWN, NM_DHCP_STATE_BOUND, NM_DHCP_STATE_TIMEOUT,
     NM_DHCP_STATE_EXPIRE, NM_DHCP_STATE_FAIL, NM_DHCP_STATE_DONE,
     NM_DHCP_STATE_TERMINATED].Nodup ∧
    ([NM_DHCP_STATE_UNKNOWN, NM_DHCP_STATE_BOUND, NM_DHCP_STATE_TIMEOUT,
      NM_DHCP_STATE_EXPIRE, NM_DHCP_STATE_FAIL, NM_DHCP_STATE_DONE,
      NM_DHCP_STATE_TERMINATED].map NMDhcpState.toNat).Nodup ∧
    NMDhcpState.zero = NM_DHCP_STATE_UNKNOWN ∧
    NM_DHCP_STATE_UNKNOWN.toNat = 0 ∧
    NM_DHCP_STATE_MAX = NM_DHCP_STATE_TERMINATED.toNat := by
  refine ⟨?_, by decide, by decide, rfl, rfl, rfl⟩
  intro s
  cases s <;> decide

/-! ## Theorems: the lease state machine -/

/-- The state after nm_dhcp_client_set_state: the new state if the call is a
transition, the old one otherwise. -/
theorem set_state_state {β : Type} (c : ClientInstance β) (s : NMDhcpState)
    (ip : Option NMIPConfig) (o : Option Options) :
    (nm_dhcp_client_set_state c s ip o).state =
      if transition_legal c.state s && payload_ok s ip o then s else c.state := by
  unfold nm_dhcp_client_set_state
  split <;> rfl

/-- On a TERMINATED instance nm_dhcp_client_set_state changes nothing. -/
theorem set_state_of_terminated {β : Type} (c : ClientInstance β)
    (h : c.state = NM_DHCP_STATE_TERMINATED) (s : NMDhcpState)
    (ip : Option NMIPConfig) (o : Option Options) :
    nm_dhcp_client_set_state c s ip o = c := by
  have hl : transition_legal c.state s = false := by
    rw [h]; cases s <;> rfl
  simp [nm_dhcp_client_set_state, hl]

/-- On a TERMINATED instance nm_dhcp_client_handle_event changes nothing. -/
theorem handle_event_of_terminated {β : Type} (r : String → NMDhcpState)
    (b : Options → NMIPConfig) (c : ClientInstance β)
    (h : c.state = NM_DHCP_STATE_TERMINATED) (iface : String) (pid : Int) (o : Options)
    (reason : String) :
    nm_dhcp_client_handle_event r b c iface pid o reason = c := by
  unfold nm_dhcp_client_handle_event
  split_ifs <;> first | rfl | exact set_state_of_terminated c h _ _ _

/-- Every state other than TERMINATED may move to TERMINATED. -/
theorem transition_legal_to_terminated (s : NMDhcpState) (h : s ≠ NM_DHCP_STATE_TERMINATED) :
    transition_legal s NM_DHCP_STATE_TERMINATED = true := by
  cases s <;> first | rfl | exact absurd rfl h

/-- After nm_dhcp_client_stop the instance is TERMINATED. -/
theorem stop_state {β : Type} (klass : NMDhcpClientClass β) (c : ClientInstance β)
    (release : Bool) :
    (nm_dhcp_client_stop klass c release).state = NM_DHCP_STATE_TERMINATED := by
  unfold nm_dhcp_client_stop
  split_ifs with h
  · exact h
  · rw [set_state_state]
    simp [transition_legal_to_terminated _ h, payload_ok]

/-- C2: TERMINATED is absorbing.  On an instance whose lease state is
TERMINATED, every sequence of calls of nm_dhcp_client_set_state (any new state,
IP config and options) and nm_dhcp_client_handle_event (any iface, pid, options
and reason) leaves the instance as it was: same state, same stored lease, no
further notification. -/
theorem terminated_is_absorbing {β : Type} (reason_to_state : String → NMDhcpState)
    (build_ip_config : Options → NMIPConfig) (calls : List StateCall)
    (self : ClientInstance β) (h : self.state = NM_DHCP_STATE_TERMINATED) :
    calls.foldl (StateCall.apply reason_to_state build_ip_config) self = self := by
  induction calls with
  | nil => rfl
  | cons call calls ih =>
    have h1 : StateCall.apply reason_to_state build_ip_config self call = self := by
      cases call with
      | set_state s ip o => exact set_state_of_terminated self h s ip o
      | handle_event iface pid o reason =>
        exact handle_event_of_terminated _ _ self h iface pid o reason
    simp only [List.foldl_cons, h1]
    exact ih

/-- Witness of C2 on the stopped example instance. -/
theorem terminated_is_absorbing_witness :
    example_terminated.state = NM_DHCP_STATE_TERMINATED ∧
    [StateCall.set_state NM_DHCP_STATE_BOUND (some { entries := [] }) (some []),
     StateCall.handle_event "eth0" 4711 [] "bound",
     StateCall.set_state NM_DHCP_STATE_UNKNOWN none none].foldl
      (StateCall.apply example_reason_to_state example_build_ip_config) example_terminated
      = example_terminated :=
  ⟨rfl, terminated_is_absorbing example_reason_to_state example_build_ip_config _
    example_terminated rfl⟩

/-- C3: in every lease state and for every event, nm_dhcp_client_handle_event
called with a pid that differs from the tracked helper pid, or with an iface that
is not the interface of the instance, leaves the instance as it was: the state is
unchanged and no notification is emitted. -/
theorem handle_event_foreign_dropped {β : Type} (reason_to_state : String → NMDhcpState)
    (build_ip_config : Options → NMIPConfig) (self : ClientInstance β)
    (iface : String) (pid : Int) (options : Options) (reason : String)
    (h : self.pid ≠ some pid ∨ iface ≠ self.iface) :
    nm_dhcp_client_handle_event reason_to_state build_ip_config self iface pid options reason
      = self ∧
    (nm_dhcp_client_handle_event reason_to_state build_ip_config self iface pid options
      reason).state = self.state ∧
    (nm_dhcp_client_handle_event reason_to_state build_ip_config self iface pid options
      reason).notifications = self.notifications := by
  have key : nm_dhcp_client_handle_event reason_to_state build_ip_config self iface pid options
      reason = self := by
    unfold nm_dhcp_client_handle_event
    rcases h with h | h
    · by_cases hi : iface ≠ self.iface
      · rw [if_pos hi]
      · rw [if_neg hi, if_pos h]
    · rw [if_pos h]
  rw [key]
  exact ⟨rfl, rfl, rfl⟩

/-- Witness of C3: a "bound" event for eth0 from pid 1 while the helper is 4711. -/
theorem handle_event_foreign_dropped_witness :
    (example_client.pid ≠ some 1 ∨ "eth0" ≠ example_client.iface) ∧
    nm_dhcp_client_handle_event example_reason_to_state example_build_ip_config
      example_client "eth0" 1 [("ip_address", "192.0.2.7")] "bound" = example_client :=
  ⟨Or.inl (by decide),
   (handle_event_foreign_dropped example_reason_to_state example_build_ip_config
      example_client "eth0" 1 [("ip_address", "192.0.2.7")] "bound" (Or.inl (by decide))).1⟩

/-- C4: nm_dhcp_client_stop is idempotent for every backend: a second call
right after the first leaves the instance, its state and its notifications
included, as the first call left it; on a TERMINATED instance the call is a
no-op. -/
theorem stop_idempotent {β : Type} (klass : NMDhcpClientClass β) (self : ClientInstance β)
    (release release2 : Bool) :
    nm_dhcp_client_stop klass (nm_dhcp_client_stop klass self release) release2
      = nm_dhcp_client_stop klass self release ∧
    (self.state = NM_DHCP_STATE_TERMINATED → nm_dhcp_client_stop klass self release = self) := by
  constructor
  · have h := stop_state klass self release
    generalize nm_dhcp_client_stop klass self release = c1 at h
    simp [nm_dhcp_client_stop, h]
  · intro h
    simp [nm_dhcp_client_stop, h]

/-- Witness of C4: stopping the example instance twice, and stopping the
stopped example instance. -/
theorem stop_idempotent_witness :
    nm_dhcp_client_stop unit_backend (nm_dhcp_client_stop unit_backend example_client true) false
      = nm_dhcp_client_stop unit_backend example_client true ∧
    example_terminated.state = NM_DHCP_STATE_TERMINATED ∧
    nm_dhcp_client_stop unit_backend example_terminated true = example_terminated :=
  ⟨(stop_idempotent unit_backend example_client true false).1, rfl,
   (stop_idempotent unit_backend example_terminated true true).2 rfl⟩

/-- C8: for every input string, base, min, max and fallback,
_nm_utils_ascii_str_to_int64 returns either fallback or a value v with
min <= v <= max. -/
theorem ascii_str_to_int64_in_range (str : Option (List Char)) (base : Nat)
    (min max fallback : Int) :
    (_nm_utils_ascii_str_to_int64 str base min max fallback).1 = fallback ∨
    (min ≤ (_nm_utils_ascii_str_to_int64 str base min max fallback).1 ∧
      (_nm_utils_ascii_str_to_int64 str base min max fallback).1 ≤ max) := by
  unfold _nm_utils_ascii_str_to_int64
  cases str with
  | none => exact Or.inl rfl
  | some str =>
    simp only
    split_ifs with h1 h2 h3 h4
    · exact Or.inl rfl
    · exact Or.inl rfl
    · exact Or.inl rfl
    · exact Or.inl rfl
    · right
      simp only [Bool.or_eq_true, decide_eq_true_eq, not_or, not_lt] at h4
      exact ⟨h4.2, h4.1⟩

/-- C9, evaluated: the vertical tab is not white space for g_ascii_isspace, yet
_nm_utils_ascii_str_to_int64 accepts it in front of the number (the string
"\v5" yields 5 with errno 0), while the same character behind the number is
rejected (the string "5\v" yields fallback with errno EINVAL). -/
theorem ascii_str_to_int64_vertical_tab :
    g_ascii_isspace '\x0b' = false ∧
    _nm_utils_ascii_str_to_int64 (some ['\x0b', '5']) 10 0 100 (-1) = (5, 0) ∧
    _nm_utils_ascii_str_to_int64 (some ['5', '\x0b']) 10 0 100 (-1) = (-1, EINVAL) ∧
    _nm_utils_ascii_str_to_int64 (some [' ', '5', ' ']) 10 0 100 (-1) = (5, 0) := by
  refine ⟨by decide, by decide, by decide, by decide⟩

/-- C10, evaluated: for the string "\v-2" with the full range of guint64,
_nm_utils_ascii_str_to_uint64 returns 18446744073709551614, the wrapped-around
value of -2, with errno 0; the strings "-2" and " -2" yield fallback with errno
ERANGE, and "-0" yields 0. -/
theorem ascii_str_to_uint64_wraps_after_vertical_tab :
    _nm_utils_ascii_str_to_uint64 (some ['\x0b', '-', '2']) 10 0 G_MAXUINT64 0
      = (18446744073709551614, 0) ∧
    _nm_utils_ascii_str_to_uint64 (some ['-', '2']) 10 0 G_MAXUINT64 0 = (0, ERANGE) ∧
    _nm_utils_ascii_str_to_uint64 (some [' ', '-', '2']) 10 0 G_MAXUINT64 0 = (0, ERANGE) ∧
    _nm_utils_ascii_str_to_uint64 (some ['-', '0']) 10 0 G_MAXUINT64 7 = (0, 0) := by
  refine ⟨by decide, by decide, by decide, by decide⟩

/-- What _nm_utils_ascii_str_to_uint64 does guarantee about a minus sign: if the
first character that g_ascii_isspace does not skip is the minus sign, the result
is 0 with errno 0, or fallback with a non-zero errno. -/
theorem ascii_str_to_uint64_minus_first (str : List Char) (base min max fallback : Nat)
    (h : cpeek (nm_str_skip_leading_spaces str) = '-') :
    _nm_utils_ascii_str_to_uint64 (some str) base min max fallback = (0, 0) ∨
    ((_nm_utils_ascii_str_to_uint64 (some str) base min max fallback).1 = fallback ∧
      (_nm_utils_ascii_str_to_uint64 (some str) base min max fallback).2 ≠ 0) := by
  unfold _nm_utils_ascii_str_to_uint64
  simp only
  split_ifs with h1 h2 h3 h4 h5
  · exact Or.inr ⟨rfl, by simp [EINVAL]⟩
  · exact Or.inr ⟨rfl, h2⟩
  · exact Or.inr ⟨rfl, by simp [EINVAL]⟩
  · exact Or.inr ⟨rfl, by simp [ERANGE]⟩
  · exact Or.inr ⟨rfl, by simp [ERANGE]⟩
  · left
    simp only [h, Bool.and_eq_true, decide_eq_true_eq, and_true, bne_iff_ne, ne_eq,
      Decidable.not_not, decide_not, Bool.not_eq_true', decide_eq_false_iff_not] at h5
    rw [h5]

/-! ## Theorems: string buffers -/

/-- The first `n` bytes of `s` hold no `c`: `memchr` finds nothing. -/
theorem memchr_eq_none (c : Char) (n : Nat) :
    ∀ s : List Char, (∀ k, k < n → byte_at s k ≠ c) → memchr s c n = none := by
  induction n with
  | zero => intro s _; simp [memchr]
  | succ n ih =>
    intro s h
    cases s with
    | nil => simp [memchr]
    | cons x xs =>
      have hx : x ≠ c := by simpa [byte_at] using h 0 (Nat.succ_pos n)
      have hxs : ∀ k, k < n → byte_at xs k ≠ c := by
        intro k hk
        simpa [byte_at] using h (k + 1) (Nat.succ_lt_succ hk)
      simp [memchr, hx, ih xs hxs]

/-- The first `c` of `s` is at offset `l`, within the first `n` bytes and within
the list: `memchr` finds it. -/
theorem memchr_eq_some (c : Char) (n : Nat) :
    ∀ (s : List Char) (l : Nat), l < n → l < s.length → byte_at s l = c →
      (∀ k, k < l → byte_at s k ≠ c) → memchr s c n = some l := by
  induction n with
  | zero => intro s l hl; exact absurd hl (Nat.not_lt_zero l)
  | succ n ih =>
    intro s l hl hlen hc hfirst
    cases s with
    | nil => simp at hlen
    | cons x xs =>
      cases l with
      | zero =>
        have hx : x = c := by simpa [byte_at] using hc
        simp [memchr, hx]
      | succ l =>
        have hx : x ≠ c := by simpa [byte_at] using hfirst 0 (Nat.succ_pos l)
        have h1 : memchr xs c n = some l := by
          apply ih xs l (Nat.lt_of_succ_lt_succ hl)
          · simpa using hlen
          · simpa [byte_at] using hc
          · intro k hk
            simpa [byte_at] using hfirst (k + 1) (Nat.succ_lt_succ hk)
        simp [memchr, hx, h1]

/-- The byte `k` of `mem.drop buf` is the byte `buf + k` of `mem`. -/
theorem byte_at_drop (mem : List Char) (buf k : Nat) :
    byte_at (mem.drop buf) k = byte_at mem (buf + k) := by
  simp [byte_at, List.getD_eq_getElem?_getD, List.getElem?_drop]

/-- C11: nm_utils_strbuf_seek_end behaves as documented for every buffer and
length.  If *len is 0 nothing changes.  If the first *len bytes contain a NUL
byte, the first one at offset l, then *buf is advanced by l to that NUL, *len is
reduced by l, the remaining *len is at least 1 and the memory is untouched.  If
the first *len bytes contain no NUL byte, the last of them is overwritten with
NUL, *len becomes 0 and *buf points just past that NUL. -/
theorem strbuf_seek_end_documented (mem : List Char) (buf len : Nat)
    (hbuf : buf + len ≤ mem.length) :
    (len = 0 → nm_utils_strbuf_seek_end mem buf len = (mem, buf, len)) ∧
    (∀ l, l < len → byte_at mem (buf + l) = '\x00' →
      (∀ k, k < l → byte_at mem (buf + k) ≠ '\x00') →
      nm_utils_strbuf_seek_end mem buf len = (mem, buf + l, len - l) ∧ 1 ≤ len - l) ∧
    (0 < len → (∀ k, k < len → byte_at mem (buf + k) ≠ '\x00') →
      nm_utils_strbuf_seek_end mem buf len = (mem.set (buf + len - 1) '\x00', buf + len, 0) ∧
      byte_at (mem.set (buf + len - 1) '\x00') (buf + len - 1) = '\x00') := by
  refine ⟨?_, ?_, ?_⟩
  · intro h0
    simp [nm_utils_strbuf_seek_end, h0]
  · intro l hl hnul hfirst
    refine ⟨?_, by omega⟩
    unfold nm_utils_strbuf_seek_end
    by_cases h1 : len ≤ 1
    · have hlen : len = 1 := by omega
      have hl0 : l = 0 := by omega
      subst hl0
      simp only [Nat.add_zero] at hnul
      simp [hlen, hnul]
    · rw [if_neg h1]
      have hfound : memchr (mem.drop buf) '\x00' len = some l := by
        apply memchr_eq_some _ _ _ _ hl
        · simp; omega
        · rw [byte_at_drop]; exact hnul
        · intro k hk; rw [byte_at_drop]; exact hfirst k hk
      simp [hfound]
  · intro hpos hnone
    have hset : byte_at (mem.set (buf + len - 1) '\x00') (buf + len - 1) = '\x00' := by
      have : buf + len - 1 < mem.length := by omega
      simp [byte_at, List.getD_eq_getElem?_getD, this]
    refine ⟨?_, hset⟩
    unfold nm_utils_strbuf_seek_end
    by_cases h1 : len ≤ 1
    · have hlen : len = 1 := by omega
      have h0 := hnone 0 hpos
      simp only [Nat.add_zero] at h0
      simp [hlen, h0]
    · rw [if_neg h1]
      have hnf : memchr (mem.drop buf) '\x00' len = none := by
        apply memchr_eq_none
        intro k hk; rw [byte_at_drop]; exact hnone k hk
      simp [hnf]

/-- Witness of C11: the 6 bytes "ab\0cd\0" with *len 6, where the first NUL is at
offset 2, and the unterminated 3 bytes "abc". -/
theorem strbuf_seek_end_documented_witness :
    nm_utils_strbuf_seek_end ['a', 'b', '\x00', 'c', 'd', '\x00'] 0 6
      = (['a', 'b', '\x00', 'c', 'd', '\x00'], 2, 4) ∧
    nm_utils_strbuf_seek_end ['a', 'b', 'c'] 0 3 = (['a', 'b', '\x00'], 3, 0) :=
  ⟨((strbuf_seek_end_documented ['a', 'b', '\x00', 'c', 'd', '\x00'] 0 6 (by decide)).2.1 2
      (by decide) (by decide) (by decide)).1,
   ((strbuf_seek_end_documented ['a', 'b', 'c'] 0 3 (by decide)).2.2 (by decide)
      (by decide)).1⟩

/-- Reading a byte after a write into the list. -/
theorem byte_at_set (mem : List Char) (i : Nat) (c : Char) (j : Nat) (hi : i < mem.length) :
    byte_at (mem.set i c) j = if j = i then c else byte_at mem j := by
  unfold byte_at
  by_cases h : j = i
  · subst h
    simp [List.getD_eq_getElem?_getD, hi]
  · have h' : i ≠ j := fun e => h e.symm
    simp [List.getD_eq_getElem?_getD, List.getElem?_set_ne h', h]

/-- The first byte of a non-empty list, and the bytes behind it. -/
theorem byte_at_cons_succ (x : Char) (l : List Char) (j : Nat) :
    byte_at (x :: l) (j + 1) = byte_at l j := by
  simp [byte_at]

/-- The first byte of a non-empty list. -/
theorem byte_at_cons_zero (x : Char) (l : List Char) : byte_at (x :: l) 0 = x := by
  simp [byte_at]

/-- The bytes of a prefix. -/
theorem byte_at_take (l : List Char) (n k : Nat) (h : k < n) :
    byte_at (l.take n) k = byte_at l k := by
  simp [byte_at, List.getD_eq_getElem?_getD, List.getElem?_take, h]

/-- The bytes of the first part of an appended list. -/
theorem byte_at_append_left (l1 l2 : List Char) (k : Nat) (h : k < l1.length) :
    byte_at (l1 ++ l2) k = byte_at l1 k := by
  simp [byte_at, List.getD_eq_getElem?_getD, List.getElem?_append_left h]

/-- The bytes of the second part of an appended list. -/
theorem byte_at_append_right (l1 l2 : List Char) (k : Nat) :
    byte_at (l1 ++ l2) (l1.length + k) = byte_at l2 k := by
  simp [byte_at, List.getD_eq_getElem?_getD, List.getElem?_append_right]

/-- The function memcpy keeps the size of the memory. -/
theorem length_memcpy (data : List Char) :
    ∀ (mem : List Char) (dst : Nat), (memcpy mem dst data).length = mem.length := by
  induction data with
  | nil => intro mem dst; rfl
  | cons c cs ih => intro mem dst; simp [memcpy, ih]

/-- Reading a byte after memcpy. -/
theorem byte_at_memcpy (data : List Char) :
    ∀ (mem : List Char) (dst j : Nat), dst + data.length ≤ mem.length →
      byte_at (memcpy mem dst data) j =
        if dst ≤ j ∧ j < dst + data.length then byte_at data (j - dst) else byte_at mem j := by
  induction data with
  | nil =>
    intro mem dst j _
    have : ¬ (dst ≤ j ∧ j < dst + ([] : List Char).length) := by
      simp only [List.length_nil]; omega
    rw [memcpy, if_neg this]
  | cons c cs ih =>
    intro mem dst j h
    simp only [List.length_cons] at h
    have hlen : dst + 1 + cs.length ≤ (mem.set dst c).length := by simp; omega
    rw [memcpy, ih (mem.set dst c) (dst + 1) j hlen, byte_at_set mem dst c j (by omega)]
    by_cases h1 : j = dst
    · subst h1
      simp [byte_at_cons_zero]
    · by_cases h2 : dst + 1 ≤ j ∧ j < dst + 1 + cs.length
      · have h3 : dst ≤ j ∧ j < dst + (cs.length + 1) := by omega
        have h4 : j - dst = (j - (dst + 1)) + 1 := by omega
        rw [if_pos h2, List.length_cons, if_pos h3, h4, byte_at_cons_succ]
      · have h3 : ¬ (dst ≤ j ∧ j < dst + (cs.length + 1)) := by omega
        rw [if_neg h2, if_neg h1, List.length_cons, if_neg h3]

/-- No character of a C string is NUL. -/
theorem cstr_no_nul (s : List Char) : ∀ c ∈ cstr s, c ≠ '\x00' := by
  intro c hc
  have := List.mem_takeWhile_imp hc
  simpa using this

/-- The string is empty exactly when its first character is NUL. -/
theorem cstr_eq_nil_iff (s : List Char) : cstr s = [] ↔ cpeek s = '\x00' := by
  cases s with
  | nil => simp [cstr, cpeek]
  | cons x xs =>
    by_cases h : x = '\x00'
    · simp [cstr, cpeek, h]
    · simp [cstr, cpeek, h, List.takeWhile_cons]

/-- A memory whose first bytes are the NUL-free `X`, followed by a NUL, holds the
C string `X`. -/
theorem cstr_eq_of_bytes (X : List Char) :
    ∀ r : List Char, (∀ c ∈ X, c ≠ '\x00') → (∀ j, j < X.length → byte_at r j = byte_at X j) →
      byte_at r X.length = '\x00' → cstr r = X := by
  induction X with
  | nil =>
    intro r _ _ hn
    cases r with
    | nil => rfl
    | cons y ys =>
      have : y = '\x00' := by simpa [byte_at] using hn
      simp [cstr, this]
  | cons x xs ih =>
    intro r hX hb hn
    have hx : x ≠ '\x00' := hX x (List.mem_cons_self x xs)
    cases r with
    | nil =>
      have := hb 0 (by simp)
      simp [byte_at] at this
      exact absurd this.symm hx
    | cons y ys =>
      have hy : y = x := by simpa [byte_at] using hb 0 (by simp)
      subst hy
      have hrec : cstr ys = xs := by
        apply ih ys (fun c hc => hX c (List.mem_cons_of_mem _ hc))
        · intro j hj
          have := hb (j + 1) (by simpa using hj)
          simpa [byte_at_cons_succ] using this
        · simpa [byte_at_cons_succ] using hn
      have hstep : cstr (y :: ys) = y :: cstr ys := by
        simp [cstr, List.takeWhile_cons, hx]
      rw [hstep, hrec]

/-- What g_strlcpy leaves in the memory: the first characters of the source, a
NUL behind them, and nothing else changed. -/
theorem g_strlcpy_bytes (mem : List Char) (dest : Nat) (src : List Char) (size : Nat)
    (hsize : 1 ≤ size) (hmem : dest + size ≤ mem.length) :
    (g_strlcpy mem dest src size).2 = strlen src ∧
    (g_strlcpy mem dest src size).1.length = mem.length ∧
    (∀ k, k < min (strlen src) (size - 1) →
      byte_at (g_strlcpy mem dest src size).1 (dest + k) = byte_at (cstr src) k) ∧
    byte_at (g_strlcpy mem dest src size).1 (dest + min (strlen src) (size - 1)) = '\x00' ∧
    (∀ j, j < dest ∨ dest + min (strlen src) (size - 1) < j →
      byte_at (g_strlcpy mem dest src size).1 j = byte_at mem j) := by
  have hs : size ≠ 0 := by omega
  have hlt : ((cstr src).take (size - 1)).length = min (strlen src) (size - 1) := by
    simp [strlen, Nat.min_comm]
  have hfit : dest + ((cstr src).take (size - 1)).length ≤ mem.length := by
    rw [hlt]; omega
  have hidx : dest + min (strlen src) (size - 1)
      < (memcpy mem dest ((cstr src).take (size - 1))).length := by
    rw [length_memcpy]; omega
  refine ⟨by simp [g_strlcpy, hs], by simp [g_strlcpy, hs, length_memcpy], ?_, ?_, ?_⟩ <;>
    simp only [g_strlcpy, if_neg hs]
  · intro k hk
    rw [byte_at_set _ _ _ _ hidx, if_neg (by omega), byte_at_memcpy _ _ _ _ hfit, hlt,
      if_pos (by omega)]
    have : dest + k - dest = k := by omega
    rw [this, byte_at_take _ _ _ (by omega)]
  · rw [byte_at_set _ _ _ _ hidx, if_pos rfl]
  · intro j hj
    rw [byte_at_set _ _ _ _ hidx, if_neg (by omega), byte_at_memcpy _ _ _ _ hfit, hlt,
      if_neg (by omega)]

/-- Reading a byte after a write, without a hypothesis on the index. -/
theorem byte_at_set_if (mem : List Char) (i : Nat) (c : Char) (j : Nat) :
    byte_at (mem.set i c) j = if j = i ∧ i < mem.length then c else byte_at mem j := by
  by_cases hi : i < mem.length
  · rw [byte_at_set mem i c j hi]
    by_cases h : j = i <;> simp [h, hi]
  · have : mem.set i c = mem := List.set_eq_of_length_le (by omega)
    rw [this, if_neg (by omega)]

/-- A memory that holds a double quote, the NUL-free `t`, the character `q` and
a NUL holds the C string made of the quote, `t` and `q`. -/
theorem cstr_quoted (r t : List Char) (q : Char) (ht : ∀ c ∈ t, c ≠ '\x00') (hq : q ≠ '\x00')
    (h0 : byte_at r 0 = '"') (h1 : ∀ k, k < t.length → byte_at r (k + 1) = byte_at t k)
    (h2 : byte_at r (t.length + 1) = q) (h3 : byte_at r (t.length + 2) = '\x00') :
    cstr r = '"' :: (t ++ [q]) := by
  apply cstr_eq_of_bytes
  · intro c hc
    simp only [List.mem_cons, List.mem_append, List.mem_singleton, List.not_mem_nil,
      or_false] at hc
    rcases hc with rfl | hc | rfl
    · decide
    · exact ht c hc
    · exact hq
  · intro j hj
    simp only [List.length_cons, List.length_append, List.length_singleton,
      List.length_nil] at hj
    cases j with
    | zero => rw [h0, byte_at_cons_zero]
    | succ k =>
      rw [byte_at_cons_succ]
      by_cases hk : k < t.length
      · rw [h1 k hk, byte_at_append_left _ _ _ hk]
      · have hk2 : k = t.length := by omega
        subst hk2
        have := byte_at_append_right t [q] 0
        simp only [Nat.add_zero, byte_at_cons_zero] at this
        rw [h2, this]
  · simpa using h3

/-- The third case of nm_utils_strbuf_append_str: at least two bytes left and a
non-empty string. -/
theorem strbuf_append_str_copy (mem : List Char) (buf len : Nat) (s : List Char)
    (hlen : 2 ≤ len) (hs : cpeek s ≠ '\x00') :
    nm_utils_strbuf_append_str mem buf len (some s) =
      if (g_strlcpy mem buf s len).2 ≥ len then ((g_strlcpy mem buf s len).1, buf + len, 0)
      else ((g_strlcpy mem buf s len).1, buf + (g_strlcpy mem buf s len).2,
        len - (g_strlcpy mem buf s len).2) := by
  obtain ⟨n, rfl⟩ : ∃ n, len = n + 2 := ⟨len - 2, by omega⟩
  simp [nm_utils_strbuf_append_str, hs]

/-- The case of nm_utils_strbuf_append_str with at least two bytes left and an
empty string. -/
theorem strbuf_append_str_empty (mem : List Char) (buf len : Nat) (s : List Char)
    (hlen : 2 ≤ len) (hs : cpeek s = '\x00') :
    nm_utils_strbuf_append_str mem buf len (some s) = (mem.set buf '\x00', buf, len) := by
  obtain ⟨n, rfl⟩ : ∃ n, len = n + 2 := ⟨len - 2, by omega⟩
  simp [nm_utils_strbuf_append_str, hs]

/-- What nm_strquote writes for a non-NULL string into a buffer of at least 3
bytes: the quoted string if it fits, else the quote, the first `buf_len - 3`
characters and the mark `^`; the memory keeps its size and nothing is written
from offset `buf_len` on. -/
theorem strquote_quoted (mem : List Char) (B : Nat) (s : List Char) (h3 : 3 ≤ B)
    (hmem : B ≤ mem.length) :
    (nm_strquote mem B (some s)).length = mem.length ∧
    (∀ j, B ≤ j → byte_at (nm_strquote mem B (some s)) j = byte_at mem j) ∧
    (strlen s + 3 ≤ B → cstr (nm_strquote mem B (some s)) = '"' :: (cstr s ++ ['"'])) ∧
    (B < strlen s + 3 →
      cstr (nm_strquote mem B (some s)) = '"' :: ((cstr s).take (B - 3) ++ ['^'])) := by
  have hB : ¬ B ≤ 2 := by omega
  have hB1 : ¬ B - 1 ≤ 1 := by omega
  by_cases hs : cpeek s = '\x00'
  · have ht : cstr s = [] := (cstr_eq_nil_iff s).mpr hs
    have hl : strlen s = 0 := by simp [strlen, ht]
    have hr : nm_strquote mem B (some s)
        = (((mem.set 0 '"').set 1 '\x00').set 1 '"').set 2 '\x00' := by
      simp [nm_strquote, hB, strbuf_append_str_empty _ _ _ _ (show 2 ≤ B - 1 by omega) hs, hB1]
    rw [hr]
    refine ⟨by simp, ?_, ?_, ?_⟩
    · intro j hj
      simp only [byte_at_set_if, List.length_set]
      rw [if_neg (by omega), if_neg (by omega), if_neg (by omega), if_neg (by omega)]
    · intro _
      rw [ht]
      apply cstr_quoted _ [] '"' (by simp) (by decide)
      · simp only [byte_at_set_if, List.length_set]
        rw [if_neg (by omega), if_neg (by omega), if_neg (by omega), if_pos ⟨trivial, by omega⟩]
      · intro k hk; simp at hk
      · simp only [byte_at_set_if, List.length_set, List.length_nil]
        rw [if_neg (by omega), if_pos ⟨trivial, by omega⟩]
      · simp only [byte_at_set_if, List.length_set, List.length_nil]
        rw [if_pos ⟨trivial, by omega⟩]
    · intro h; omega
  · have ht : cstr s ≠ [] := fun h => hs ((cstr_eq_nil_iff s).mp h)
    have hl : 0 < strlen s := by
      simp only [strlen]; exact List.length_pos.mpr ht
    obtain ⟨hret, hlen2, hcopy, hnul, hframe⟩ :=
      g_strlcpy_bytes (mem.set 0 '"') 1 s (B - 1) (by omega) (by simp; omega)
    have happ := strbuf_append_str_copy (mem.set 0 '"') 1 (B - 1) s (by omega) hs
    rw [hret] at happ
    generalize hm2 : (g_strlcpy (mem.set 0 '"') 1 s (B - 1)).1 = m2 at hlen2 hcopy hnul hframe happ
    simp only [List.length_set] at hlen2
    have hq0 : byte_at m2 0 = '"' := by
      rw [hframe 0 (Or.inl (by omega)), byte_at_set_if, if_pos ⟨rfl, by omega⟩]
    by_cases hA : strlen s ≥ B - 1
    · -- the copy was cut: nothing is left
      have hmin : min (strlen s) (B - 1 - 1) = B - 2 := by omega
      rw [hmin] at hcopy hnul hframe
      have hr : nm_strquote mem B (some s) = m2.set (B - 2) '^' := by
        simp only [nm_strquote, if_neg hB, happ, if_pos hA]
        have : (1 + (B - 1) - 2) = B - 2 := by omega
        simp [this]
      rw [hr]
      refine ⟨by simp [hlen2], ?_, fun h => by omega, ?_⟩
      · intro j hj
        rw [byte_at_set_if, if_neg (by omega), hframe j (Or.inr (by omega)), byte_at_set_if,
          if_neg (by omega)]
      · intro _
        have hlt : ((cstr s).take (B - 3)).length = B - 3 := by
          simp only [List.length_take, strlen] at hA ⊢; omega
        apply cstr_quoted _ _ '^' (fun c hc => cstr_no_nul s c (List.mem_of_mem_take hc))
          (by decide)
        · rw [byte_at_set_if, if_neg (by omega), hq0]
        · intro k hk
          rw [hlt] at hk
          rw [byte_at_set_if, if_neg (by omega), Nat.add_comm k 1, hcopy k (by omega),
            byte_at_take _ _ _ hk]
        · rw [hlt, byte_at_set_if, if_pos ⟨by omega, by omega⟩]
        · rw [hlt, byte_at_set_if, if_neg (by omega)]
          have : B - 3 + 2 = 1 + (B - 2) := by omega
          rw [this, hnul]
    · have hmin : min (strlen s) (B - 1 - 1) = strlen s := by omega
      rw [hmin] at hcopy hnul hframe
      by_cases hC : B - 1 - strlen s ≤ 1
      · -- the copy fits exactly: the byte left holds the NUL
        have hone : B - 1 - strlen s = 1 := by omega
        have hr : nm_strquote mem B (some s) = m2.set (strlen s) '^' := by
          simp only [nm_strquote, if_neg hB, happ, if_neg hA, hone]
          simp
        rw [hr]
        refine ⟨by simp [hlen2], ?_, fun h => by omega, ?_⟩
        · intro j hj
          rw [byte_at_set_if, if_neg (by omega), hframe j (Or.inr (by omega)), byte_at_set_if,
            if_neg (by omega)]
        · intro _
          have hlt : ((cstr s).take (B - 3)).length = B - 3 := by
            simp only [List.length_take, strlen] at hone ⊢; omega
          apply cstr_quoted _ _ '^' (fun c hc => cstr_no_nul s c (List.mem_of_mem_take hc))
            (by decide)
          · rw [byte_at_set_if, if_neg (by omega), hq0]
          · intro k hk
            rw [hlt] at hk
            rw [byte_at_set_if, if_neg (by omega), Nat.add_comm k 1, hcopy k (by omega),
              byte_at_take _ _ _ hk]
          · rw [hlt, byte_at_set_if, if_pos ⟨by omega, by omega⟩]
          · rw [hlt, byte_at_set_if, if_neg (by omega)]
            have : B - 3 + 2 = 1 + strlen s := by omega
            rw [this, hnul]
      · -- the string fits with room for the closing quote
        have hr : nm_strquote mem B (some s)
            = (m2.set (1 + strlen s) '"').set (1 + strlen s + 1) '\x00' := by
          simp only [nm_strquote, if_neg hB, happ, if_neg hA, if_neg hC]
        rw [hr]
        refine ⟨by simp [hlen2], ?_, ?_, fun h => by omega⟩
        · intro j hj
          rw [byte_at_set_if, if_neg (by omega), byte_at_set_if, if_neg (by omega),
            hframe j (Or.inr (by omega)), byte_at_set_if, if_neg (by omega)]
        · intro _
          have hlt : (cstr s).length = strlen s := rfl
          apply cstr_quoted _ _ '"' (cstr_no_nul s) (by decide)
          · rw [byte_at_set_if, if_neg (by omega), byte_at_set_if, if_neg (by omega), hq0]
          · intro k hk
            rw [hlt] at hk
            rw [byte_at_set_if, if_neg (by omega), byte_at_set_if, if_neg (by omega),
              Nat.add_comm k 1, hcopy k hk]
          · rw [hlt, byte_at_set_if, if_neg (by omega), byte_at_set_if,
              if_pos ⟨by omega, by omega⟩]
          · rw [hlt, byte_at_set_if, if_pos ⟨by omega, by simp [hlen2]; omega⟩]

/-- Behind the C string at the start of a list stands a NUL (or the list ends). -/
theorem byte_at_strlen (r : List Char) : byte_at r (strlen r) = '\x00' := by
  induction r with
  | nil => rfl
  | cons x xs ih =>
    by_cases hx : x = '\x00'
    · simp [strlen, cstr, hx, byte_at]
    · have : strlen (x :: xs) = strlen xs + 1 := by
        simp [strlen, cstr, List.takeWhile_cons, hx]
      rw [this, byte_at_cons_succ, ih]

/-- With one byte nm_strquote writes the empty string. -/
theorem strquote_one (mem : List Char) (s : List Char) :
    nm_strquote mem 1 (some s) = mem.set 0 '\x00' := by
  simp [nm_strquote]

/-- With two bytes nm_strquote writes the mark `^` alone. -/
theorem strquote_two (mem : List Char) (s : List Char) :
    nm_strquote mem 2 (some s) = (mem.set 0 '^').set 1 '\x00' := by
  simp [nm_strquote]

/-- The string that nm_strquote writes with one byte. -/
theorem cstr_strquote_one (mem : List Char) (s : List Char) (hmem : 1 ≤ mem.length) :
    cstr (nm_strquote mem 1 (some s)) = [] := by
  apply cstr_eq_of_bytes _ _ (by simp) (by simp)
  rw [strquote_one, List.length_nil, byte_at_set_if, if_pos ⟨rfl, by omega⟩]

/-- The string that nm_strquote writes with two bytes. -/
theorem cstr_strquote_two (mem : List Char) (s : List Char) (hmem : 2 ≤ mem.length) :
    cstr (nm_strquote mem 2 (some s)) = ['^'] := by
  apply cstr_eq_of_bytes _ _ (by simp) ?_ ?_
  · intro j hj
    have : j = 0 := by simpa using hj
    subst this
    rw [strquote_two, byte_at_set_if, if_neg (by omega), byte_at_set_if,
      if_pos ⟨rfl, by omega⟩]
    rfl
  · rw [strquote_two, List.length_singleton, byte_at_set_if,
      if_pos ⟨rfl, by rw [List.length_set]; omega⟩]

/-- What nm_strquote writes for NULL: as much of "(null)" as fits. -/
theorem strquote_null (mem : List Char) (B : Nat) (h1 : 1 ≤ B) (hmem : B ≤ mem.length) :
    (nm_strquote mem B none).length = mem.length ∧
    (∀ j, B ≤ j → byte_at (nm_strquote mem B none) j = byte_at mem j) ∧
    cstr (nm_strquote mem B none) = "(null)".toList.take (B - 1) := by
  have hpeek : cpeek "(null)".toList ≠ '\x00' := by decide
  have hcstr : cstr "(null)".toList = "(null)".toList := by decide
  have hstrlen : strlen "(null)".toList = 6 := by decide
  have hnonul : ∀ c ∈ "(null)".toList.take (B - 1), c ≠ '\x00' := by
    intro c hc
    have := cstr_no_nul "(null)".toList c
    rw [hcstr] at this
    exact this (List.mem_of_mem_take hc)
  by_cases hB : B = 1
  · subst hB
    have hr : nm_strquote mem 1 none = mem.set 0 '\x00' := by
      simp only [nm_strquote, nm_utils_strbuf_append_str, Option.isNone_some, Option.getD_some,
        Bool.false_or, decide_eq_true_eq, if_neg hpeek]
    rw [hr]
    refine ⟨by simp, ?_, ?_⟩
    · intro j hj
      rw [byte_at_set_if, if_neg (by omega)]
    · apply cstr_eq_of_bytes _ _ (by simp) (by simp)
      simp only [Nat.sub_self, List.take_zero, List.length_nil]
      rw [byte_at_set_if, if_pos ⟨rfl, by omega⟩]
  · obtain ⟨hret, hlen2, hcopy, hnul, hframe⟩ :=
      g_strlcpy_bytes mem 0 "(null)".toList B h1 (by omega)
    have happ := strbuf_append_str_copy mem 0 B "(null)".toList (by omega) hpeek
    have hr : nm_strquote mem B none = (g_strlcpy mem 0 "(null)".toList B).1 := by
      simp only [nm_strquote, happ]
      split <;> rfl
    rw [hr]
    rw [hstrlen] at hcopy hnul hframe
    have hlt : ("(null)".toList.take (B - 1)).length = min 6 (B - 1) := by
      simp [Nat.min_comm]
    refine ⟨hlen2, ?_, ?_⟩
    · intro j hj
      exact hframe j (Or.inr (by omega))
    · apply cstr_eq_of_bytes _ _ hnonul
      · intro j hj
        rw [hlt] at hj
        have := hcopy j hj
        rw [Nat.zero_add, hcstr] at this
        rw [this, byte_at_take _ _ _ (by omega)]
      · rw [hlt]
        have := hnul
        rw [Nat.zero_add] at this
        exact this

/-- C12: for every buf_len >= 1, nm_strquote writes a string that is NUL
terminated within the first buf_len bytes of buf (and writes nothing behind
them); if str is NULL the string is the prefix of "(null)" that fits; if str is
non-NULL and strlen(str) + 3 <= buf_len the string is exactly a double quote,
then str, then a double quote. -/
theorem strquote_terminated_and_exact (mem : List Char) (buf_len : Nat)
    (str : Option (List Char)) (h1 : 1 ≤ buf_len) (hmem : buf_len ≤ mem.length) :
    strlen (nm_strquote mem buf_len str) < buf_len ∧
    byte_at (nm_strquote mem buf_len str) (strlen (nm_strquote mem buf_len str)) = '\x00' ∧
    (nm_strquote mem buf_len str).length = mem.length ∧
    (∀ j, buf_len ≤ j → byte_at (nm_strquote mem buf_len str) j = byte_at mem j) ∧
    (str = none →
      cstr (nm_strquote mem buf_len str) = "(null)".toList.take (buf_len - 1) ∧
      cstr (nm_strquote mem buf_len str) <+: "(null)".toList) ∧
    (∀ s, str = some s → strlen s + 3 ≤ buf_len →
      cstr (nm_strquote mem buf_len str) = '"' :: (cstr s ++ ['"'])) := by
  refine ⟨?_, byte_at_strlen _, ?_⟩
  · -- the length of the string
    cases str with
    | none =>
      have h := (strquote_null mem buf_len h1 hmem).2.2
      simp only [strlen, h, List.length_take]
      omega
    | some s =>
      by_cases hB : 3 ≤ buf_len
      · obtain ⟨_, _, hfit, hcut⟩ := strquote_quoted mem buf_len s hB hmem
        by_cases hf : strlen s + 3 ≤ buf_len
        · simp only [strlen, hfit hf, List.length_cons, List.length_append,
            List.length_singleton, List.length_nil] at hf ⊢
          omega
        · have hc := hcut (by omega)
          simp only [strlen, hc, List.length_cons, List.length_append, List.length_take,
            List.length_singleton, List.length_nil]
          omega
      · have hcases : buf_len = 1 ∨ buf_len = 2 := by omega
        rcases hcases with rfl | rfl
        · simp [strlen, cstr_strquote_one mem s hmem]
        · simp [strlen, cstr_strquote_two mem s hmem]
  · refine ⟨?_, ?_, ?_, ?_⟩
    · cases str with
      | none => exact (strquote_null mem buf_len h1 hmem).1
      | some s =>
        by_cases hB : 3 ≤ buf_len
        · exact (strquote_quoted mem buf_len s hB hmem).1
        · have hcases : buf_len = 1 ∨ buf_len = 2 := by omega
          rcases hcases with rfl | rfl
          · rw [strquote_one, List.length_set]
          · rw [strquote_two, List.length_set, List.length_set]
    · intro j hj
      cases str with
      | none => exact (strquote_null mem buf_len h1 hmem).2.1 j hj
      | some s =>
        by_cases hB : 3 ≤ buf_len
        · exact (strquote_quoted mem buf_len s hB hmem).2.1 j hj
        · have hcases : buf_len = 1 ∨ buf_len = 2 := by omega
          rcases hcases with rfl | rfl
          · rw [strquote_one, byte_at_set_if, if_neg (by omega)]
          · rw [strquote_two, byte_at_set_if, if_neg (by omega), byte_at_set_if,
              if_neg (by omega)]
    · intro hnone
      subst hnone
      have h := (strquote_null mem buf_len h1 hmem).2.2
      exact ⟨h, by rw [h]; exact List.take_prefix _ _⟩
    · intro s hs hfit
      subst hs
      exact (strquote_quoted mem buf_len s (by omega) hmem).2.2.1 hfit

/-- Witness of C12: quoting "abc" into 8 bytes, and NULL into 4 bytes. -/
theorem strquote_terminated_and_exact_witness :
    cstr (nm_strquote (List.replicate 8 'z') 8 (some ['a', 'b', 'c']))
      = ['"', 'a', 'b', 'c', '"'] ∧
    cstr (nm_strquote (List.replicate 8 'z') 4 none) = ['(', 'n', 'u'] :=
  ⟨(strquote_terminated_and_exact (List.replicate 8 'z') 8 (some ['a', 'b', 'c']) (by decide)
      (by decide)).2.2.2.2.2 ['a', 'b', 'c'] rfl (by decide),
   ((strquote_terminated_and_exact (List.replicate 8 'z') 4 none (by decide)
      (by decide)).2.2.2.2.1 rfl).1⟩

/-- C13: if a non-NULL str needs to be truncated by nm_strquote
(strlen(str) + 3 > buf_len, buf_len >= 2), the closing quote is the mark `^`
instead of the double quote: the last character of the result is `^`; for
buf_len >= 3 the result is a double quote, the first buf_len - 3 characters of
str and `^`, and for buf_len = 2 it is `^` alone. -/
theorem strquote_truncated (mem : List Char) (buf_len : Nat) (s : List Char)
    (h2 : 2 ≤ buf_len) (hmem : buf_len ≤ mem.length) (htrunc : buf_len < strlen s + 3) :
    (cstr (nm_strquote mem buf_len (some s))).getLast? = some '^' ∧
    (3 ≤ buf_len →
      cstr (nm_strquote mem buf_len (some s)) = '"' :: ((cstr s).take (buf_len - 3) ++ ['^'])) ∧
    (buf_len = 2 → cstr (nm_strquote mem buf_len (some s)) = ['^']) := by
  by_cases hB : 3 ≤ buf_len
  · have h := (strquote_quoted mem buf_len s hB hmem).2.2.2 htrunc
    refine ⟨?_, fun _ => h, fun h' => by omega⟩
    rw [h]
    simp [List.getLast?_cons, List.getLast?_append]
  · have hb : buf_len = 2 := by omega
    subst hb
    have h : cstr (nm_strquote mem 2 (some s)) = ['^'] := cstr_strquote_two mem s hmem
    exact ⟨by rw [h]; rfl, fun h' => by omega, fun _ => h⟩

/-- Witness of C13: quoting "abcdef" into 6 bytes. -/
theorem strquote_truncated_witness :
    cstr (nm_strquote (List.replicate 8 'z') 6 (some ['a', 'b', 'c', 'd', 'e', 'f']))
      = ['"', 'a', 'b', 'c', '^'] :=
  (strquote_truncated (List.replicate 8 'z') 6 ['a', 'b', 'c', 'd', 'e', 'f'] (by decide)
    (by decide) (by decide)).2.1 (by decide)

/-! ## Theorems: splitting strings -/

/-- A list without NUL is empty exactly when its first character reads as NUL. -/
theorem cpeek_eq_nul_iff (s : List Char) (h : ∀ c ∈ s, c ≠ '\x00') :
    cpeek s = '\x00' ↔ s = [] := by
  cases s with
  | nil => simp [cpeek]
  | cons x xs =>
    have hx : x ≠ '\x00' := h x (List.mem_cons_self x xs)
    simp [cpeek, hx]

/-- The string that is left after the leading delimiters holds no NUL. -/
theorem dropWhile_cstr_no_nul (p : Char → Bool) (s : List Char) :
    ∀ c ∈ (cstr s).dropWhile p, c ≠ '\x00' := by
  intro c hc
  exact cstr_no_nul s c ((List.dropWhile_sublist p).subset hc)

/-- The second loop always yields at least one word when it starts on a word. -/
theorem strsplit_words_ne_nil (lookup : Char → Bool) (esc pres : Bool) (n : Nat) :
    ∀ (s cur : List Char), s.length ≤ n → strsplit_words lookup esc pres s cur false ≠ [] := by
  induction n with
  | zero =>
    intro s cur hs
    have : s = [] := List.length_eq_zero.mp (Nat.le_zero.mp hs)
    subst this
    simp [strsplit_words]
  | succ n ih =>
    intro s cur hs
    cases s with
    | nil => simp [strsplit_words]
    | cons c cs =>
      simp only [List.length_cons, Nat.add_le_add_iff_right] at hs
      rw [strsplit_words.eq_def]
      simp only
      split_ifs with h1 h2
      · simp
      · cases cs with
        | nil => simp
        | cons c2 cs2 =>
          simp only [List.length_cons] at hs
          exact ih cs2 _ (by omega)
      · exact ih cs _ hs

/-- C14: nm_utils_strsplit_set_full returns NULL whenever str is NULL or ""
(for every value of the flags), and whenever str contains only delimiter
characters and PRESERVE_EMPTY is not set; in every other case without the
STRSTRIP flag it returns an array with at least one word. -/
theorem strsplit_null_or_nonempty (str delimiters : Option (List Char))
    (flags : NMUtilsStrsplitSetFlags) :
    (str = none → nm_utils_strsplit_set_full str delimiters flags = none) ∧
    (∀ s, str = some s → cstr s = [] →
      nm_utils_strsplit_set_full str delimiters flags = none) ∧
    (∀ s, str = some s → flags.NM_UTILS_STRSPLIT_SET_FLAGS_PRESERVE_EMPTY = false →
      (∀ c ∈ cstr s, _char_lookup_table_init (delimiters.getD [' ', '\t', '\n']) c = true) →
      nm_utils_strsplit_set_full str delimiters flags = none) ∧
    (∀ s, str = some s → cstr s ≠ [] →
      ¬ (flags.NM_UTILS_STRSPLIT_SET_FLAGS_PRESERVE_EMPTY = false ∧
        ∀ c ∈ cstr s, _char_lookup_table_init (delimiters.getD [' ', '\t', '\n']) c = true) →
      flags.NM_UTILS_STRSPLIT_SET_FLAGS_STRSTRIP = false →
      ∃ words, nm_utils_strsplit_set_full str delimiters flags = some words ∧ words ≠ []) := by
  refine ⟨?_, ?_, ?_, ?_⟩
  · intro h; subst h; rfl
  · intro s hs hempty
    subst hs
    simp [nm_utils_strsplit_set_full, hempty, cpeek]
  · intro s hs hpres hall
    subst hs
    have hdrop : (cstr s).dropWhile (_char_lookup_table_init (delimiters.getD [' ', '\t', '\n']))
        = [] := by
      rw [List.dropWhile_eq_nil_iff]; exact hall
    simp [nm_utils_strsplit_set_full, hpres, hdrop, cpeek]
  · intro s hs hne hnot hstrip
    subst hs
    have hstart : cpeek (if (!flags.NM_UTILS_STRSPLIT_SET_FLAGS_PRESERVE_EMPTY) = true then
        (cstr s).dropWhile (_char_lookup_table_init (delimiters.getD [' ', '\t', '\n']))
        else cstr s) ≠ '\x00' := by
      by_cases hp : flags.NM_UTILS_STRSPLIT_SET_FLAGS_PRESERVE_EMPTY = true
      · simp only [hp, Bool.not_true, Bool.false_eq_true, if_false]
        rw [Ne, cpeek_eq_nul_iff _ (cstr_no_nul s)]
        exact hne
      · have hp' : flags.NM_UTILS_STRSPLIT_SET_FLAGS_PRESERVE_EMPTY = false := by
          simpa using hp
        simp only [hp', Bool.not_false, if_true]
        rw [Ne, cpeek_eq_nul_iff _ (dropWhile_cstr_no_nul _ s), List.dropWhile_eq_nil_iff]
        intro hall
        exact hnot ⟨hp', hall⟩
    simp only [nm_utils_strsplit_set_full, hstrip, if_neg hstart, Bool.false_and,
      Bool.false_eq_true, if_false]
    split_ifs <;> refine ⟨_, rfl, ?_⟩ <;>
      first
        | exact strsplit_words_ne_nil _ _ _ _ _ _ (Nat.le_refl _)
        | (simp only [ne_eq, List.map_eq_nil_iff]
           exact strsplit_words_ne_nil _ _ _ _ _ _ (Nat.le_refl _))

/-- Witness of C14: a string of delimiters only, and a string with words. -/
theorem strsplit_null_or_nonempty_witness :
    nm_utils_strsplit_set_full (some [',', ',']) (some [',']) NM_UTILS_STRSPLIT_SET_FLAGS_NONE
      = none ∧
    ∃ words, nm_utils_strsplit_set_full (some ['a', ',', 'b']) (some [','])
      NM_UTILS_STRSPLIT_SET_FLAGS_NONE = some words ∧ words ≠ [] :=
  ⟨(strsplit_null_or_nonempty (some [',', ',']) (some [','])
      NM_UTILS_STRSPLIT_SET_FLAGS_NONE).2.2.1 [',', ','] rfl rfl (by decide),
   (strsplit_null_or_nonempty (some ['a', ',', 'b']) (some [','])
      NM_UTILS_STRSPLIT_SET_FLAGS_NONE).2.2.2 ['a', ',', 'b'] rfl (by decide) (by decide) rfl⟩

/-- The second loop at the end of the string, inside a word. -/
theorem strsplit_words_nil_false (lookup : Char → Bool) (esc pres : Bool) (cur : List Char) :
    strsplit_words lookup esc pres [] cur false = [cur] := by
  rw [strsplit_words.eq_def]

/-- The second loop at the end of the string, behind delimiters. -/
theorem strsplit_words_nil_true (lookup : Char → Bool) (esc pres : Bool) (cur : List Char) :
    strsplit_words lookup esc pres [] cur true = [] := by
  rw [strsplit_words.eq_def]

/-- The second loop at a delimiter, inside a word: the word ends. -/
theorem strsplit_words_delim (lookup : Char → Bool) (esc pres : Bool) (c : Char)
    (cs cur : List Char) (h : lookup c = true) :
    strsplit_words lookup esc pres (c :: cs) cur false
      = cur :: strsplit_words lookup esc pres cs [] (!pres) := by
  rw [strsplit_words.eq_def]
  simp [h]

/-- The second loop at a character that is no delimiter and starts no escape,
inside a word. -/
theorem strsplit_words_plain (lookup : Char → Bool) (esc pres : Bool) (c : Char)
    (cs cur : List Char) (h : lookup c = false) (he : (c = '\\' && esc) = false) :
    strsplit_words lookup esc pres (c :: cs) cur false
      = strsplit_words lookup esc pres cs (cur ++ [c]) false := by
  rw [strsplit_words.eq_def]
  simp only [h, Bool.false_eq_true, if_false]
  rw [if_neg (by simpa using he)]

/-- The second loop at a delimiter, behind delimiters: it is skipped. -/
theorem strsplit_words_skip (lookup : Char → Bool) (esc pres : Bool) (c : Char)
    (cs cur : List Char) (h : lookup c = true) :
    strsplit_words lookup esc pres (c :: cs) cur true
      = strsplit_words lookup esc pres cs [] true := by
  rw [strsplit_words.eq_def]
  simp [h]

/-- The second loop at the first character behind delimiters is the loop inside
a fresh word. -/
theorem strsplit_words_start (lookup : Char → Bool) (esc pres : Bool) (c : Char)
    (cs cur : List Char) (h : lookup c = false) :
    strsplit_words lookup esc pres (c :: cs) cur true
      = strsplit_words lookup esc pres (c :: cs) [] false := by
  rw [strsplit_words.eq_def]
  conv => rhs; rw [strsplit_words.eq_def]
  simp [h]

/-- Without escaping and without PRESERVE_EMPTY the second loop yields the
non-empty pieces between the delimiters. -/
theorem strsplit_words_eq_runs (lookup : Char → Bool) (s : List Char) :
    strsplit_words lookup false false s [] true
        = (s.splitOnP lookup).filter (fun w => !w.isEmpty) ∧
    ∀ cur, cur ≠ [] →
      strsplit_words lookup false false s cur false
        = ((s.splitOnP lookup).modifyHead (cur ++ ·)).filter (fun w => !w.isEmpty) := by
  induction s with
  | nil =>
    refine ⟨by simp [strsplit_words_nil_true, List.splitOnP_nil], ?_⟩
    intro cur hcur
    simp [strsplit_words_nil_false, List.splitOnP_nil, List.modifyHead, hcur]
  | cons c cs ih =>
    obtain ⟨ih1, ih2⟩ := ih
    have hscan : ∀ cur, cur ≠ [] →
        strsplit_words lookup false false (c :: cs) cur false
          = (((c :: cs).splitOnP lookup).modifyHead (cur ++ ·)).filter (fun w => !w.isEmpty) := by
      intro cur hcur
      by_cases hc : lookup c = true
      · rw [strsplit_words_delim _ _ _ _ _ _ hc, List.splitOnP_cons, if_pos hc]
        simp [List.modifyHead, hcur, ih1]
      · have hc' : lookup c = false := by simpa using hc
        rw [strsplit_words_plain _ _ _ _ _ _ hc' (by simp), List.splitOnP_cons, if_neg hc,
          ih2 (cur ++ [c]) (by simp)]
        congr 1
        cases List.splitOnP lookup cs with
        | nil => rfl
        | cons w ws => simp [List.modifyHead]
    refine ⟨?_, hscan⟩
    by_cases hc : lookup c = true
    · rw [strsplit_words_skip _ _ _ _ _ _ hc, List.splitOnP_cons, if_pos hc, ih1]
      simp
    · have hc' : lookup c = false := by simpa using hc
      rw [strsplit_words_start _ _ _ _ _ _ hc', strsplit_words_plain _ _ _ _ _ _ hc' (by simp),
        List.splitOnP_cons, if_neg hc, ih2 ([] ++ [c]) (by simp)]
      congr 1

/-- Leading delimiters add only empty pieces. -/
theorem splitOnP_dropWhile_filter (p : Char → Bool) (s : List Char) :
    ((s.dropWhile p).splitOnP p).filter (fun w => !w.isEmpty)
      = (s.splitOnP p).filter (fun w => !w.isEmpty) := by
  induction s with
  | nil => rfl
  | cons c cs ih =>
    by_cases hc : p c = true
    · rw [List.dropWhile_cons_of_pos hc, ih, List.splitOnP_cons, if_pos hc]
      simp
    · rw [List.dropWhile_cons_of_neg hc]

/-- No piece between delimiters holds a delimiter. -/
theorem splitOnP_no_delim (p : Char → Bool) (s : List Char) :
    ∀ w ∈ s.splitOnP p, ∀ c ∈ w, p c = false := by
  induction s with
  | nil => intro w hw c hc; simp [List.splitOnP_nil] at hw; subst hw; simp at hc
  | cons x xs ih =>
    intro w hw c hc
    rw [List.splitOnP_cons] at hw
    by_cases hx : p x = true
    · rw [if_pos hx] at hw
      rcases List.mem_cons.mp hw with rfl | hw
      · simp at hc
      · exact ih w hw c hc
    · rw [if_neg hx] at hw
      cases hsp : List.splitOnP p xs with
      | nil => rw [hsp] at hw; simp [List.modifyHead] at hw
      | cons v vs =>
        rw [hsp] at hw ih
        simp only [List.modifyHead, List.mem_cons] at hw
        rcases hw with rfl | hw
        · rcases List.mem_cons.mp hc with rfl | hc
          · simpa using hx
          · exact ih v (List.mem_cons_self v vs) c hc
        · exact ih w (List.mem_cons_of_mem v hw) c hc

/-- C15: with no flags set nm_utils_strsplit_set_full strips all empty tokens.
For every string and delimiter set the words of the result (none for NULL) are
exactly the non-empty pieces into which the delimiters cut str, in order: the
maximal non-empty runs of characters that are no delimiters.  The result is
NULL exactly when there is no such run; no returned word is empty and no word
contains a delimiter character. -/
theorem strsplit_no_flags_runs (str delimiters : List Char) :
    (nm_utils_strsplit_set_full (some str) (some delimiters)
        NM_UTILS_STRSPLIT_SET_FLAGS_NONE).getD []
      = ((cstr str).splitOnP (_char_lookup_table_init delimiters)).filter
          (fun w => !w.isEmpty) ∧
    (nm_utils_strsplit_set_full (some str) (some delimiters)
        NM_UTILS_STRSPLIT_SET_FLAGS_NONE = none ↔
      ((cstr str).splitOnP (_char_lookup_table_init delimiters)).filter
          (fun w => !w.isEmpty) = []) ∧
    (∀ w ∈ (nm_utils_strsplit_set_full (some str) (some delimiters)
        NM_UTILS_STRSPLIT_SET_FLAGS_NONE).getD [],
      w ≠ [] ∧ ∀ c ∈ w, c ∉ cstr delimiters) := by
  have hres : nm_utils_strsplit_set_full (some str) (some delimiters)
      NM_UTILS_STRSPLIT_SET_FLAGS_NONE =
      if (cstr str).dropWhile (_char_lookup_table_init delimiters) = [] then none
      else some (((cstr str).splitOnP (_char_lookup_table_init delimiters)).filter
        (fun w => !w.isEmpty)) := by
    have hnul := cpeek_eq_nul_iff _ (dropWhile_cstr_no_nul (_char_lookup_table_init delimiters) str)
    simp only [nm_utils_strsplit_set_full, NM_UTILS_STRSPLIT_SET_FLAGS_NONE, Bool.or_self,
      Bool.not_false, if_true, Option.getD_some, hnul, Bool.false_and, Bool.false_eq_true,
      if_false]
    split_ifs with h
    · rfl
    · congr 1
      rw [← splitOnP_dropWhile_filter]
      cases hd : (cstr str).dropWhile (_char_lookup_table_init delimiters) with
      | nil => exact absurd hd h
      | cons c cs =>
        have hc : _char_lookup_table_init delimiters c = false := by
          have := List.head_dropWhile_not (_char_lookup_table_init delimiters) (cstr str)
            (by rw [hd]; simp)
          simpa [hd] using this
        rw [← strsplit_words_start _ _ _ _ _ [] hc]
        exact (strsplit_words_eq_runs _ _).1
  have hempty : (cstr str).dropWhile (_char_lookup_table_init delimiters) = [] →
      ((cstr str).splitOnP (_char_lookup_table_init delimiters)).filter
        (fun w => !w.isEmpty) = [] := by
    intro h
    rw [← splitOnP_dropWhile_filter, h]
    rfl
  have hnonempty : (cstr str).dropWhile (_char_lookup_table_init delimiters) ≠ [] →
      ((cstr str).splitOnP (_char_lookup_table_init delimiters)).filter
        (fun w => !w.isEmpty) ≠ [] := by
    intro h
    rw [← splitOnP_dropWhile_filter]
    cases hd : (cstr str).dropWhile (_char_lookup_table_init delimiters) with
    | nil => exact absurd hd h
    | cons c cs =>
      have hc : _char_lookup_table_init delimiters c = false := by
        have := List.head_dropWhile_not (_char_lookup_table_init delimiters) (cstr str)
          (by rw [hd]; simp)
        simpa [hd] using this
      have h1 := (strsplit_words_eq_runs (_char_lookup_table_init delimiters) (c :: cs)).1
      rw [← h1, strsplit_words_start _ _ _ _ _ [] hc]
      exact strsplit_words_ne_nil _ _ _ _ _ _ (Nat.le_refl _)
  have hget : (nm_utils_strsplit_set_full (some str) (some delimiters)
      NM_UTILS_STRSPLIT_SET_FLAGS_NONE).getD []
      = ((cstr str).splitOnP (_char_lookup_table_init delimiters)).filter
          (fun w => !w.isEmpty) := by
    rw [hres]
    split_ifs with h
    · rw [hempty h]; rfl
    · rfl
  refine ⟨hget, ?_, ?_⟩
  · rw [hres]
    split_ifs with h
    · simp [hempty h]
    · simp [hnonempty h]
  · intro w hw
    rw [hget, List.mem_filter] at hw
    refine ⟨by simpa using hw.2, ?_⟩
    intro c hc hmem
    have := splitOnP_no_delim _ _ w hw.1 c hc
    simp [_char_lookup_table_init, hmem] at this

/-- Witness of C15: the runs of ",,a,,b,," are "a" and "b". -/
theorem strsplit_no_flags_runs_witness :
    ['a'] ≠ [] ∧ ∀ c ∈ ['a'], c ∉ cstr [','] :=
  (strsplit_no_flags_runs [',', ',', 'a', ',', ',', 'b', ',', ','] [',']).2.2 ['a']
    (by decide)

/-! ## Theorems: searching string lists -/

/-- The NUL is the only character with the value 0. -/
theorem char_toNat_eq_zero (c : Char) : (c.toNat : Int) = 0 ↔ c = '\x00' := by
  constructor
  · intro h
    have h0 : c.toNat = 0 := by exact_mod_cast h
    apply Char.ext
    apply UInt32.ext
    simpa [Char.toNat] using h0
  · intro h; subst h; rfl

/-- Different characters have different values. -/
theorem char_toNat_sub_ne_zero (a b : Char) (h : a ≠ b) :
    (a.toNat : Int) - (b.toNat : Int) ≠ 0 := by
  intro h0
  apply h
  have h1 : a.toNat = b.toNat := by omega
  apply Char.ext
  apply UInt32.ext
  simpa [Char.toNat] using h1

/-- The function strcmp returns 0 exactly for equal C strings. -/
theorem strcmp_eq_zero_iff (a : List Char) : ∀ b : List Char, strcmp a b = 0 ↔ cstr a = cstr b := by
  induction a with
  | nil =>
    intro b
    cases b with
    | nil => simp [strcmp]
    | cons y ys =>
      simp only [strcmp, neg_eq_zero, char_toNat_eq_zero]
      by_cases hy : y = '\x00'
      · simp [hy, cstr]
      · simp [hy, cstr, List.takeWhile_cons]
  | cons x xs ih =>
    intro b
    cases b with
    | nil =>
      simp only [strcmp, char_toNat_eq_zero]
      by_cases hx : x = '\x00'
      · simp [hx, cstr]
      · simp [hx, cstr, List.takeWhile_cons]
    | cons y ys =>
      simp only [strcmp]
      by_cases hxy : x = y
      · subst hxy
        by_cases hx : x = '\x00'
        · simp [hx, cstr]
        · have := ih ys
          simp only [cstr] at this
          simp [hx, cstr, List.takeWhile_cons, this]
      · rw [if_pos hxy]
        have hne := char_toNat_sub_ne_zero x y hxy
        simp only [hne, false_iff]
        by_cases hx : x = '\x00'
        · have hy : y ≠ '\x00' := fun h => hxy (hx.trans h.symm)
          simp [hx, hy, cstr, List.takeWhile_cons]
        · by_cases hy : y = '\x00'
          · simp [hx, hy, cstr, List.takeWhile_cons]
          · simp [hx, hy, cstr, List.takeWhile_cons, hxy]

/-- The loop returns the index of the first hit, counted from `i`, or -1. -/
theorem strv_scan_spec (hit : Option (List Char) → Bool) (l : List (Option (List Char))) :
    ∀ i : Int, 0 ≤ i →
      (strv_scan hit l i = -1 ∧ ∀ x ∈ l, hit x = false) ∨
      (∃ k : Nat, strv_scan hit l i = i + (k : Int) ∧ (∃ x, l[k]? = some x ∧ hit x = true) ∧
        ∀ j, j < k → ∀ y, l[j]? = some y → hit y = false) := by
  induction l with
  | nil => intro i _; left; simp [strv_scan]
  | cons x xs ih =>
    intro i hi
    by_cases hx : hit x = true
    · right
      refine ⟨0, by simp [strv_scan, hx], ⟨x, by simp, hx⟩, ?_⟩
      intro j hj; omega
    · have hx' : hit x = false := by simpa using hx
      rcases ih (i + 1) (by omega) with ⟨h1, h2⟩ | ⟨k, h1, ⟨y, hy, hhit⟩, h3⟩
      · left
        refine ⟨by simp [strv_scan, hx', h1], ?_⟩
        intro z hz
        rcases List.mem_cons.mp hz with rfl | hz
        · exact hx'
        · exact h2 z hz
      · right
        refine ⟨k + 1, ?_, ⟨y, by simpa using hy, hhit⟩, ?_⟩
        · simp only [strv_scan, hx', Bool.false_eq_true, if_false, h1]
          push_cast; omega
        · intro j hj z hz
          cases j with
          | zero =>
            simp only [List.getElem?_cons_zero, Option.some.injEq] at hz
            subst hz; exact hx'
          | succ j =>
            simp only [List.getElem?_cons_succ] at hz
            exact h3 j (by omega) z hz

/-- C17: nm_utils_strv_find_first returns the index of the first element of list
that equals needle under strcmp() (the smallest such index), and -1 if needle
does not occur.  With a positive len exactly the first len elements are searched
(NULL elements among them never match), with a negative len the elements before
the NULL terminator, and with len 0 the result is -1. -/
theorem strv_find_first_first_match (list : List (Option (List Char))) (len : Int)
    (needle : List Char) :
    (0 < len →
      first_index_or_minus_one (fun x => ∃ s, x = some s ∧ strcmp needle s = 0)
        (list.take len.toNat) (nm_utils_strv_find_first (some list) len (some needle))) ∧
    (len < 0 →
      first_index_or_minus_one (fun x => ∃ s, x = some s ∧ strcmp needle s = 0)
        (list.takeWhile (·.isSome)) (nm_utils_strv_find_first (some list) len (some needle)) ∧
      nm_utils_strv_find_first none len (some needle) = -1) ∧
    (len = 0 → ∀ l nd, nm_utils_strv_find_first l len nd = -1) := by
  have hit_iff : ∀ x : Option (List Char),
      (match x with
        | some s => strcmp needle s == 0
        | none => false) = true ↔ ∃ s, x = some s ∧ strcmp needle s = 0 := by
    intro x
    cases x with
    | none => simp
    | some s => simp
  have key : ∀ l : List (Option (List Char)),
      first_index_or_minus_one (fun x => ∃ s, x = some s ∧ strcmp needle s = 0) l
        (strv_scan (fun x => match x with
          | some s => strcmp needle s == 0
          | none => false) l 0) := by
    intro l
    rcases strv_scan_spec (fun x => match x with
          | some s => strcmp needle s == 0
          | none => false) l 0 (le_refl 0) with ⟨h1, h2⟩ | ⟨k, h1, ⟨y, hy, hhit⟩, h3⟩
    · left
      refine ⟨h1, ?_⟩
      intro x hx hp
      have := h2 x hx
      rw [(hit_iff x).mpr hp] at this
      exact absurd this (by decide)
    · right
      refine ⟨k, by rw [h1]; omega, ⟨y, hy, (hit_iff y).mp hhit⟩, ?_⟩
      intro j hj z hz hp
      have := h3 j hj z hz
      rw [(hit_iff z).mpr hp] at this
      exact absurd this (by decide)
  refine ⟨?_, ?_, ?_⟩
  · intro hlen
    simp only [nm_utils_strv_find_first, gt_iff_lt, hlen, if_true]
    exact key _
  · intro hlen
    have h1 : ¬ len > 0 := by omega
    refine ⟨?_, ?_⟩
    · simp only [nm_utils_strv_find_first, h1, if_false, hlen, if_true]
      exact key _
    · simp only [nm_utils_strv_find_first, h1, if_false, hlen, if_true]
  · intro hlen l nd
    subst hlen
    simp [nm_utils_strv_find_first]

/-- Witness of C17: "b" is found at index 1 among the first 3 entries, and
before the NULL terminator. -/
theorem strv_find_first_first_match_witness :
    first_index_or_minus_one (fun x => ∃ s, x = some s ∧ strcmp ['b'] s = 0)
      ([some ['a'], some ['b'], some ['b'], none].take 3)
      (nm_utils_strv_find_first (some [some ['a'], some ['b'], some ['b'], none]) 3
        (some ['b'])) ∧
    nm_utils_strv_find_first (some [some ['a'], some ['b'], some ['b'], none]) (-1)
      (some ['b']) = 1 :=
  ⟨(strv_find_first_first_match [some ['a'], some ['b'], some ['b'], none] 3 ['b']).1
      (by decide), by decide⟩

/-! ## Theorems: the ovsdb callbacks -/

/-- C20: add_iface_cb and del_iface_cb distinguish the disposal-time
cancellation from every other failure.  They call nm_device_state_changed on the
slave, with NM_DEVICE_STATE_FAILED and the reason OVSDB_FAILED, if and only if
error is non-NULL and is not (NM_UTILS_ERROR, NM_UTILS_ERROR_CANCELLED_DISPOSING),
and they request no other state.  In particular the generic cancellation of
nm_utils_error_set_cancelled (G_IO_ERROR_CANCELLED) fails the device and the
disposing one does not. -/
theorem ovs_iface_cb_fails_unless_disposing (DISPOSING FAILED OVSDB_FAILED : Int)
    (error : Option GError) (iface : String) (instance_name : Option String)
    (e_disposing e_generic : GError)
    (hd : nm_utils_error_set_cancelled DISPOSING .empty true instance_name = .set e_disposing)
    (hg : nm_utils_error_set_cancelled DISPOSING .empty false instance_name = .set e_generic) :
    (SlaveCall.nm_device_state_changed FAILED OVSDB_FAILED
        ∈ add_iface_cb DISPOSING FAILED OVSDB_FAILED error iface ↔
      ∃ e, error = some e ∧ ¬ (e.domain = NM_UTILS_ERROR ∧ e.code = DISPOSING)) ∧
    (SlaveCall.nm_device_state_changed FAILED OVSDB_FAILED
        ∈ del_iface_cb DISPOSING FAILED OVSDB_FAILED error iface ↔
      ∃ e, error = some e ∧ ¬ (e.domain = NM_UTILS_ERROR ∧ e.code = DISPOSING)) ∧
    (∀ state reason, SlaveCall.nm_device_state_changed state reason
        ∈ add_iface_cb DISPOSING FAILED OVSDB_FAILED error iface ++
          del_iface_cb DISPOSING FAILED OVSDB_FAILED error iface →
      state = FAILED ∧ reason = OVSDB_FAILED) ∧
    SlaveCall.nm_device_state_changed FAILED OVSDB_FAILED
      ∈ add_iface_cb DISPOSING FAILED OVSDB_FAILED (some e_generic) iface ∧
    SlaveCall.nm_device_state_changed FAILED OVSDB_FAILED
      ∈ del_iface_cb DISPOSING FAILED OVSDB_FAILED (some e_generic) iface ∧
    add_iface_cb DISPOSING FAILED OVSDB_FAILED (some e_disposing) iface
      = [SlaveCall.g_object_unref] ∧
    del_iface_cb DISPOSING FAILED OVSDB_FAILED (some e_disposing) iface
      = [SlaveCall.g_object_unref] ∧
    add_iface_cb DISPOSING FAILED OVSDB_FAILED none iface = [SlaveCall.g_object_unref] ∧
    del_iface_cb DISPOSING FAILED OVSDB_FAILED none iface = [SlaveCall.g_object_unref] := by
  have hne : G_IO_ERROR ≠ NM_UTILS_ERROR := by decide
  have hdisp : e_disposing.domain = NM_UTILS_ERROR ∧ e_disposing.code = DISPOSING := by
    simp only [nm_utils_error_set_cancelled, if_true, g_set_error, ErrorSlot.set.injEq] at hd
    rw [← hd]
    exact ⟨rfl, rfl⟩
  have hgen : e_generic.domain = G_IO_ERROR := by
    simp only [nm_utils_error_set_cancelled, Bool.false_eq_true, if_false, g_set_error,
      ErrorSlot.set.injEq] at hg
    rw [← hg]
  have hcond : ∀ err : Option GError,
      (err.isSome && !g_error_matches err NM_UTILS_ERROR DISPOSING) = true ↔
        ∃ e, err = some e ∧ ¬ (e.domain = NM_UTILS_ERROR ∧ e.code = DISPOSING) := by
    intro err
    cases err with
    | none => simp
    | some e =>
      simp only [Option.isSome_some, g_error_matches, Bool.true_and, Bool.not_eq_true',
        Bool.and_eq_false_imp, beq_iff_eq, beq_eq_false_iff_ne, ne_eq, Option.some.injEq,
        exists_eq_left', not_and]
  refine ⟨?_, ?_, ?_, ?_, ?_, ?_, ?_, by simp [add_iface_cb, g_error_matches],
    by simp [del_iface_cb, g_error_matches]⟩
  · rw [← hcond]
    by_cases h : (error.isSome && !g_error_matches error NM_UTILS_ERROR DISPOSING) = true
    · simp [add_iface_cb, h]
    · simp [add_iface_cb, h]
  · rw [← hcond]
    by_cases h : (error.isSome && !g_error_matches error NM_UTILS_ERROR DISPOSING) = true
    · simp [del_iface_cb, h]
    · simp [del_iface_cb, h]
  · intro state reason hmem
    by_cases h : (error.isSome && !g_error_matches error NM_UTILS_ERROR DISPOSING) = true
    · simp only [add_iface_cb, del_iface_cb, h, if_true, List.mem_append, List.mem_cons,
        SlaveCall.nm_device_state_changed.injEq, List.mem_singleton, List.not_mem_nil,
        or_false, false_or] at hmem
      rcases hmem with ((h1 | h1) | h1) | ((h1 | h1) | h1) <;>
        first | exact h1 | exact absurd h1 (by simp)
    · simp [add_iface_cb, del_iface_cb, h] at hmem
  · simp [add_iface_cb, g_error_matches, hgen, hne]
  · simp [del_iface_cb, g_error_matches, hgen, hne]
  · simp [add_iface_cb, g_error_matches, hdisp.1, hdisp.2]
  · simp [del_iface_cb, g_error_matches, hdisp.1, hdisp.2]

/-- Witness of C20: the two cancellation errors that nm_utils_error_set_cancelled
produces for the instance "ovsdb", with the enumerator values 1, 120 and 64. -/
theorem ovs_iface_cb_fails_unless_disposing_witness :
    SlaveCall.nm_device_state_changed 120 64
      ∈ add_iface_cb 1 120 64
          (some { domain := G_IO_ERROR, code := G_IO_ERROR_CANCELLED,
                  message := "Request cancelled" }) "eth0" ∧
    add_iface_cb 1 120 64
      (some { domain := NM_UTILS_ERROR, code := 1, message := "Disposing ovsdb instance" })
      "eth0" = [SlaveCall.g_object_unref] :=
  have h := ovs_iface_cb_fails_unless_disposing 1 120 64 none "eth0" (some "ovsdb")
    { domain := NM_UTILS_ERROR, code := 1, message := "Disposing ovsdb instance" }
    { domain := G_IO_ERROR, code := G_IO_ERROR_CANCELLED, message := "Request cancelled" }
    (by decide) (by decide)
  ⟨h.2.2.2.1, h.2.2.2.2.2.1⟩


/-! ## Theorems: binary search -/

/-- The sortedness with respect to the needle, by indices. -/
theorem sorted_for_index {α ν : Type} (cmpfcn : α → ν → Int) (needle : ν) (list : List α)
    (hs : sorted_for cmpfcn needle list) (i j : Nat) (x y : α) (hij : i < j)
    (hx : list[i]? = some x) (hy : list[j]? = some y) :
    (cmpfcn y needle < 0 → cmpfcn x needle < 0) ∧ (0 < cmpfcn x needle → 0 < cmpfcn y needle) := by
  obtain ⟨hi, rfl⟩ := List.getElem?_eq_some.mp hx
  obtain ⟨hj, rfl⟩ := List.getElem?_eq_some.mp hy
  exact (List.pairwise_iff_getElem.mp hs) i j hi hj hij

/-- A list that is sorted by a comparison function on its elements, one that
orders them totally (`cmp a b < 0` exactly when `cmp b a > 0`, and `<= 0` is
transitive), is sorted with respect to every needle. -/
theorem sorted_for_of_sorted {α : Type} (cmp : α → α → Int)
    (hanti : ∀ a b, cmp a b < 0 ↔ 0 < cmp b a)
    (htrans : ∀ a b c, cmp a b ≤ 0 → cmp b c ≤ 0 → cmp a c ≤ 0)
    (list : List α) (hsorted : list.Pairwise (fun a b => cmp a b ≤ 0)) (needle : α) :
    sorted_for cmp needle list := by
  unfold sorted_for
  refine hsorted.imp ?_
  intro a b hab
  constructor
  · intro hb
    by_contra ha
    have h1 : cmp needle a ≤ 0 := by
      by_contra h
      exact ha ((hanti a needle).mpr (by omega))
    have h2 := htrans needle a b h1 hab
    have h3 := (hanti b needle).mp hb
    omega
  · intro ha
    by_contra hb
    have h1 : cmp b needle ≤ 0 := by omega
    have h2 := htrans a b needle hab h1
    omega

/-- The inverse of the inverse. -/
theorem bit_inverse_bit_inverse (i : Int) : bit_inverse (bit_inverse i) = i := by
  unfold bit_inverse; omega

/-- The loop of nm_utils_array_find_binary_search ends, with the index of a
matching element or with the inverse of the insertion position. -/
theorem array_find_loop_spec {α ν : Type} (list : List α) (needle : ν) (cmpfcn : α → ν → Int)
    (hs : sorted_for cmpfcn needle list) (rounds : Nat) :
    ∀ imin imax : Int, 0 ≤ imin → imax < list.length → imin ≤ imax + 1 →
      imax - imin + 1 ≤ rounds →
      (∀ (i : Nat) x, (i : Int) < imin → list[i]? = some x → cmpfcn x needle < 0) →
      (∀ (i : Nat) x, imax < (i : Int) → list[i]? = some x → 0 < cmpfcn x needle) →
      ∃ r, array_find_loop list needle cmpfcn rounds imin imax = some r ∧
        ((0 ≤ r ∧ ∃ x, list[r.toNat]? = some x ∧ cmpfcn x needle = 0) ∨
         (∃ p : Nat, r = bit_inverse p ∧ p ≤ list.length ∧
            (∀ (i : Nat) x, i < p → list[i]? = some x → cmpfcn x needle < 0) ∧
            (∀ (i : Nat) x, p ≤ i → list[i]? = some x → 0 < cmpfcn x needle))) := by
  have hend : ∀ imin imax : Int, 0 ≤ imin → imax < list.length → imin ≤ imax + 1 →
      ¬ imin ≤ imax →
      (∀ (i : Nat) x, (i : Int) < imin → list[i]? = some x → cmpfcn x needle < 0) →
      (∀ (i : Nat) x, imax < (i : Int) → list[i]? = some x → 0 < cmpfcn x needle) →
      ∃ p : Nat, bit_inverse imin = bit_inverse p ∧ p ≤ list.length ∧
        (∀ (i : Nat) x, i < p → list[i]? = some x → cmpfcn x needle < 0) ∧
        (∀ (i : Nat) x, p ≤ i → list[i]? = some x → 0 < cmpfcn x needle) := by
    intro imin imax h0 h1 h2 h3 hlo hhi
    refine ⟨imin.toNat, by rw [Int.toNat_of_nonneg h0], by omega, ?_, ?_⟩
    · intro i x hi hx; exact hlo i x (by omega) hx
    · intro i x hi hx; exact hhi i x (by omega) hx
  induction rounds with
  | zero =>
    intro imin imax h0 h1 h2 h3 hlo hhi
    have hno : ¬ imin ≤ imax := by omega
    refine ⟨bit_inverse imin, by simp [array_find_loop, hno], Or.inr ?_⟩
    exact hend imin imax h0 h1 h2 hno hlo hhi
  | succ rounds ih =>
    intro imin imax h0 h1 h2 h3 hlo hhi
    by_cases hle : imin ≤ imax
    · have hmid : imin ≤ imin + (imax - imin) / 2 ∧ imin + (imax - imin) / 2 ≤ imax := by omega
      simp only [array_find_loop, if_pos hle]
      generalize imin + (imax - imin) / 2 = mid at hmid ⊢
      have hlt : mid.toNat < list.length := by omega
      have hx : list[mid.toNat]? = some list[mid.toNat] := List.getElem?_eq_getElem hlt
      rw [hx]
      simp only []
      generalize list[mid.toNat] = x at hx ⊢
      by_cases hc0 : cmpfcn x needle = 0
      · rw [if_pos hc0]
        exact ⟨mid, rfl, Or.inl ⟨by omega, x, hx, hc0⟩⟩
      · rw [if_neg hc0]
        by_cases hcl : cmpfcn x needle < 0
        · rw [if_pos hcl]
          apply ih (mid + 1) imax (by omega) h1 (by omega) (by omega)
          · intro i x' hi hx'
            by_cases him : i = mid.toNat
            · subst him; rw [hx] at hx'; cases hx'; exact hcl
            · exact (sorted_for_index _ _ _ hs i mid.toNat x' x (by omega) hx' hx).1 hcl
          · exact hhi
        · rw [if_neg hcl]
          apply ih imin (mid - 1) h0 (by omega) (by omega) (by omega)
          · exact hlo
          · intro i x' hi hx'
            by_cases him : i = mid.toNat
            · subst him; rw [hx] at hx'; cases hx'; omega
            · exact (sorted_for_index _ _ _ hs mid.toNat i x x' (by omega) hx hx').2 (by omega)
    · refine ⟨bit_inverse imin, by simp [array_find_loop, hle], Or.inr ?_⟩
      exact hend imin imax h0 h1 h2 hle hlo hhi

/-- C18: for every list that is sorted according to cmpfcn,
nm_utils_array_find_binary_search returns a non-negative index r only if
cmpfcn(list[r], needle) == 0, and returns one whenever some element compares
equal; otherwise it returns a negative value r whose bitwise inverse p = ~r
satisfies 0 <= p <= len, every element before p compares less than needle and
every element from p on compares greater: p is the insertion position. -/
theorem array_find_binary_search_sorted {α ν : Type} (list : List α) (elem_size : Nat)
    (needle : ν) (cmpfcn : α → ν → Int) (hs : sorted_for cmpfcn needle list)
    (hsize : 0 < elem_size) :
    ∃ r, nm_utils_array_find_binary_search list elem_size needle cmpfcn = some r ∧
      (0 ≤ r → ∃ x, list[r.toNat]? = some x ∧ cmpfcn x needle = 0) ∧
      ((∃ x ∈ list, cmpfcn x needle = 0) → 0 ≤ r) ∧
      (r < 0 →
        0 ≤ bit_inverse r ∧ bit_inverse r ≤ list.length ∧
        (∀ (i : Nat) x, (i : Int) < bit_inverse r → list[i]? = some x → cmpfcn x needle < 0) ∧
        (∀ (i : Nat) x, bit_inverse r ≤ (i : Int) → list[i]? = some x →
          0 < cmpfcn x needle)) := by
  have key : ∃ r, nm_utils_array_find_binary_search list elem_size needle cmpfcn = some r ∧
      ((0 ≤ r ∧ ∃ x, list[r.toNat]? = some x ∧ cmpfcn x needle = 0) ∨
       (∃ p : Nat, r = bit_inverse p ∧ p ≤ list.length ∧
          (∀ (i : Nat) x, i < p → list[i]? = some x → cmpfcn x needle < 0) ∧
          (∀ (i : Nat) x, p ≤ i → list[i]? = some x → 0 < cmpfcn x needle))) := by
    unfold nm_utils_array_find_binary_search
    rw [if_neg (by omega)]
    by_cases hlen : list.length = 0
    · rw [if_pos hlen]
      refine ⟨_, rfl, Or.inr ⟨0, rfl, by omega, ?_, ?_⟩⟩
      · intro i x hi; omega
      · intro i x _ hx
        have := (List.getElem?_eq_some.mp hx).1
        omega
    · rw [if_neg hlen]
      apply array_find_loop_spec list needle cmpfcn hs list.length 0 _ (le_refl 0) (by omega)
        (by omega) (by omega)
      · intro i x hi; omega
      · intro i x hi hx
        have := (List.getElem?_eq_some.mp hx).1
        omega
  obtain ⟨r, hr, hpost⟩ := key
  refine ⟨r, hr, ?_, ?_, ?_⟩
  · intro h0
    rcases hpost with ⟨_, h⟩ | ⟨p, hp, _⟩
    · exact h
    · unfold bit_inverse at hp; omega
  · rintro ⟨x, hx, hx0⟩
    rcases hpost with ⟨h, _⟩ | ⟨p, hp, _, hlo, hhi⟩
    · exact h
    · obtain ⟨i, hi, hix⟩ := List.getElem_of_mem hx
      have hget : list[i]? = some x := by rw [List.getElem?_eq_getElem hi, hix]
      by_cases hip : i < p
      · have := hlo i x hip hget; omega
      · have := hhi i x (by omega) hget; omega
  · intro hneg
    rcases hpost with ⟨h, _⟩ | ⟨p, hp, hple, hlo, hhi⟩
    · omega
    · subst hp
      rw [bit_inverse_bit_inverse]
      refine ⟨by omega, by omega, ?_, ?_⟩
      · intro i x hi hx; exact hlo i x (by omega) hx
      · intro i x hi hx; exact hhi i x (by omega) hx

/-- Witness of C18: 5 is found in the sorted 1, 3, 5, 7, and 4 is not. -/
theorem array_find_binary_search_sorted_witness :
    (∃ r, nm_utils_array_find_binary_search [1, 3, 5, 7] 8 (5 : Int) (fun a b : Int => a - b)
        = some r ∧ 0 ≤ r) ∧
    nm_utils_array_find_binary_search [1, 3, 5, 7] 8 (4 : Int) (fun a b : Int => a - b)
      = some (bit_inverse 2) :=
  have h := array_find_binary_search_sorted [1, 3, 5, 7] 8 (5 : Int) (fun a b : Int => a - b)
    (by unfold sorted_for; decide) (by decide)
  ⟨h.elim fun r hr => ⟨r, hr.1, hr.2.2.1 ⟨5, by decide, by decide⟩⟩, by decide⟩



/-- Between two elements that compare equal to the needle every element compares
equal. -/
theorem sorted_for_between {α ν : Type} (cmpfcn : α → ν → Int) (needle : ν) (list : List α)
    (hs : sorted_for cmpfcn needle list) (a i b : Nat) (xa xi xb : α) (hai : a ≤ i)
    (hib : i ≤ b) (hxa : list[a]? = some xa) (hxi : list[i]? = some xi)
    (hxb : list[b]? = some xb) (ha : cmpfcn xa needle = 0) (hb : cmpfcn xb needle = 0) :
    cmpfcn xi needle = 0 := by
  by_cases h1 : a = i
  · subst h1; rw [hxa] at hxi; cases hxi; exact ha
  by_cases h2 : i = b
  · subst h2; rw [hxb] at hxi; cases hxi; exact hb
  have hlow := (sorted_for_index _ _ _ hs a i xa xi (by omega) hxa hxi).1
  have hhigh := (sorted_for_index _ _ _ hs i b xi xb (by omega) hxi hxb).2
  by_contra hne
  by_cases hlt : cmpfcn xi needle < 0
  · have := hlow hlt; omega
  · have := hhigh (by omega); omega

/-- The loop for the first matching index ends with the smallest index of the
run of matching elements that holds `imid`. -/
theorem ptrarray_first_loop_spec {α ν : Type} (list : List α) (needle : ν)
    (cmpfcn : α → ν → Int) (hs : sorted_for cmpfcn needle list) (imid : Nat) (xm : α)
    (hxm : list[imid]? = some xm) (hm0 : cmpfcn xm needle = 0) (rounds : Nat) :
    ∀ i2min i2max : Int, 0 ≤ i2min → i2min ≤ imid → i2min ≤ i2max + 1 → i2max ≤ imid + 1 →
      i2max - i2min + 1 ≤ rounds →
      (∀ (i : Nat) x, (i : Int) < i2min → list[i]? = some x → cmpfcn x needle < 0) →
      (∀ (i : Nat) x, i2max < (i : Int) → i ≤ imid → list[i]? = some x → cmpfcn x needle = 0) →
      ∃ f : Nat, ptrarray_first_loop list needle cmpfcn rounds i2min i2max = some (f : Int) ∧
        f ≤ imid ∧
        (∀ (i : Nat) x, i < f → list[i]? = some x → cmpfcn x needle < 0) ∧
        (∀ (i : Nat) x, f ≤ i → i ≤ imid → list[i]? = some x → cmpfcn x needle = 0) := by
  have himid : imid < list.length := (List.getElem?_eq_some.mp hxm).1
  have hend : ∀ i2min i2max : Int, 0 ≤ i2min → i2min ≤ imid → i2min ≤ i2max + 1 →
      ¬ i2min ≤ i2max →
      (∀ (i : Nat) x, (i : Int) < i2min → list[i]? = some x → cmpfcn x needle < 0) →
      (∀ (i : Nat) x, i2max < (i : Int) → i ≤ imid → list[i]? = some x → cmpfcn x needle = 0) →
      ∃ f : Nat, some i2min = some (f : Int) ∧ f ≤ imid ∧
        (∀ (i : Nat) x, i < f → list[i]? = some x → cmpfcn x needle < 0) ∧
        (∀ (i : Nat) x, f ≤ i → i ≤ imid → list[i]? = some x → cmpfcn x needle = 0) := by
    intro i2min i2max h0 h1 h2 h3 hlo hhi
    refine ⟨i2min.toNat, by rw [Int.toNat_of_nonneg h0], by omega, ?_, ?_⟩
    · intro i x hi hx; exact hlo i x (by omega) hx
    · intro i x hi hi2 hx; exact hhi i x (by omega) hi2 hx
  induction rounds with
  | zero =>
    intro i2min i2max h0 h1 h2 h3 h4 hlo hhi
    have hno : ¬ i2min ≤ i2max := by omega
    simp only [ptrarray_first_loop, if_neg hno]
    exact hend i2min i2max h0 h1 h2 hno hlo hhi
  | succ rounds ih =>
    intro i2min i2max h0 h1 h2 h3 h4 hlo hhi
    by_cases hle : i2min ≤ i2max
    · have hmid : i2min ≤ i2min + (i2max - i2min) / 2 ∧ i2min + (i2max - i2min) / 2 ≤ i2max ∧
          i2min + (i2max - i2min) / 2 ≤ imid := by omega
      simp only [ptrarray_first_loop, if_pos hle]
      generalize i2min + (i2max - i2min) / 2 = mid at hmid ⊢
      have hlt : mid.toNat < list.length := by omega
      have hx : list[mid.toNat]? = some list[mid.toNat] := List.getElem?_eq_getElem hlt
      rw [hx]
      simp only []
      generalize list[mid.toNat] = x at hx ⊢
      by_cases hc0 : cmpfcn x needle = 0
      · rw [if_pos hc0]
        apply ih i2min (mid - 1) h0 h1 (by omega) (by omega) (by omega) hlo
        intro i x' hi hi2 hx'
        exact sorted_for_between _ _ _ hs mid.toNat i imid x x' xm (by omega) hi2 hx hx' hxm
          hc0 hm0
      · rw [if_neg hc0]
        have hmne : mid.toNat ≠ imid := by
          intro h; rw [h, hxm] at hx; cases hx; exact hc0 hm0
        have hcl : cmpfcn x needle < 0 := by
          by_contra hge
          have := (sorted_for_index _ _ _ hs mid.toNat imid x xm (by omega) hx hxm).2 (by omega)
          omega
        apply ih (mid + 1) i2max (by omega) (by omega) (by omega) h3 (by omega) _ hhi
        intro i x' hi hx'
        by_cases him : i = mid.toNat
        · subst him; rw [hx] at hx'; cases hx'; exact hcl
        · exact (sorted_for_index _ _ _ hs i mid.toNat x' x (by omega) hx' hx).1 hcl
    · simp only [ptrarray_first_loop, if_neg hle]
      exact hend i2min i2max h0 h1 h2 hle hlo hhi

/-- The loop for the last matching index ends just behind the largest index of
the run of matching elements that holds `imid`. -/
theorem ptrarray_last_loop_spec {α ν : Type} (list : List α) (needle : ν)
    (cmpfcn : α → ν → Int) (hs : sorted_for cmpfcn needle list) (imid : Nat) (xm : α)
    (hxm : list[imid]? = some xm) (hm0 : cmpfcn xm needle = 0) (rounds : Nat) :
    ∀ i2min i2max : Int, (imid : Int) + 1 ≤ i2min → i2min ≤ i2max + 1 → i2max < list.length →
      i2max - i2min + 1 ≤ rounds →
      (∀ (i : Nat) x, imid ≤ i → (i : Int) < i2min → list[i]? = some x → cmpfcn x needle = 0) →
      (∀ (i : Nat) x, i2max < (i : Int) → list[i]? = some x → 0 < cmpfcn x needle) →
      ∃ l : Nat, ptrarray_last_loop list needle cmpfcn rounds i2min i2max = some (l : Int) ∧
        imid + 1 ≤ l ∧ l ≤ list.length ∧
        (∀ (i : Nat) x, imid ≤ i → i < l → list[i]? = some x → cmpfcn x needle = 0) ∧
        (∀ (i : Nat) x, l ≤ i → list[i]? = some x → 0 < cmpfcn x needle) := by
  have hend : ∀ i2min i2max : Int, (imid : Int) + 1 ≤ i2min → i2min ≤ i2max + 1 →
      i2max < list.length → ¬ i2min ≤ i2max →
      (∀ (i : Nat) x, imid ≤ i → (i : Int) < i2min → list[i]? = some x → cmpfcn x needle = 0) →
      (∀ (i : Nat) x, i2max < (i : Int) → list[i]? = some x → 0 < cmpfcn x needle) →
      ∃ l : Nat, some i2min = some (l : Int) ∧ imid + 1 ≤ l ∧ l ≤ list.length ∧
        (∀ (i : Nat) x, imid ≤ i → i < l → list[i]? = some x → cmpfcn x needle = 0) ∧
        (∀ (i : Nat) x, l ≤ i → list[i]? = some x → 0 < cmpfcn x needle) := by
    intro i2min i2max h0 h1 h2 h3 hlo hhi
    refine ⟨i2min.toNat, by rw [Int.toNat_of_nonneg (by omega)], by omega, by omega, ?_, ?_⟩
    · intro i x hi hi2 hx; exact hlo i x hi (by omega) hx
    · intro i x hi hx; exact hhi i x (by omega) hx
  induction rounds with
  | zero =>
    intro i2min i2max h0 h1 h2 h4 hlo hhi
    have hno : ¬ i2min ≤ i2max := by omega
    simp only [ptrarray_last_loop, if_neg hno]
    exact hend i2min i2max h0 h1 h2 hno hlo hhi
  | succ rounds ih =>
    intro i2min i2max h0 h1 h2 h4 hlo hhi
    by_cases hle : i2min ≤ i2max
    · have hmid : i2min ≤ i2min + (i2max - i2min) / 2 ∧ i2min + (i2max - i2min) / 2 ≤ i2max := by
        omega
      simp only [ptrarray_last_loop, if_pos hle]
      generalize i2min + (i2max - i2min) / 2 = mid at hmid ⊢
      have hlt : mid.toNat < list.length := by omega
      have hx : list[mid.toNat]? = some list[mid.toNat] := List.getElem?_eq_getElem hlt
      rw [hx]
      simp only []
      generalize list[mid.toNat] = x at hx ⊢
      by_cases hc0 : cmpfcn x needle = 0
      · rw [if_pos hc0]
        apply ih (mid + 1) i2max (by omega) (by omega) h2 (by omega) _ hhi
        intro i x' hi hi2 hx'
        exact sorted_for_between _ _ _ hs imid i mid.toNat xm x' x hi (by omega) hxm hx' hx
          hm0 hc0
      · rw [if_neg hc0]
        have hcg : 0 < cmpfcn x needle := by
          by_contra hle0
          have := (sorted_for_index _ _ _ hs imid mid.toNat xm x (by omega) hxm hx).1 (by omega)
          omega
        apply ih i2min (mid - 1) h0 (by omega) (by omega) (by omega) hlo
        intro i x' hi hx'
        by_cases him : i = mid.toNat
        · subst him; rw [hx] at hx'; cases hx'; exact hcg
        · exact (sorted_for_index _ _ _ hs mid.toNat i x x' (by omega) hx hx').2 hcg
    · simp only [ptrarray_last_loop, if_neg hle]
      exact hend i2min i2max h0 h1 h2 hle hlo hhi



/-- The outer loop of nm_utils_ptrarray_find_binary_search ends: either with the
index of a matching element together with the bounds of the run of matching
elements, or with the inverse of the insertion position in all three places.
Whether the two pointers are NULL decides only whether the values are stored. -/
theorem ptrarray_find_loop_spec {α ν : Type} (list : List α) (needle : ν)
    (cmpfcn : α → ν → Int) (hs : sorted_for cmpfcn needle list) (rounds : Nat) :
    ∀ imin imax : Int, 0 ≤ imin → imax < list.length → imin ≤ imax + 1 →
      imax - imin + 1 ≤ rounds →
      (∀ (i : Nat) x, (i : Int) < imin → list[i]? = some x → cmpfcn x needle < 0) →
      (∀ (i : Nat) x, imax < (i : Int) → list[i]? = some x → 0 < cmpfcn x needle) →
      ∃ r first last : Int,
        (∀ b1 b2 : Bool, ptrarray_find_loop list needle cmpfcn b1 b2 rounds imin imax
          = some (r, if b1 then some first else none, if b2 then some last else none)) ∧
        ((∃ f l : Nat, first = f ∧ last + 1 = l ∧ (f : Int) ≤ r ∧ r < l ∧ l ≤ list.length ∧
            (∀ (i : Nat) x, i < f → list[i]? = some x → cmpfcn x needle < 0) ∧
            (∀ (i : Nat) x, f ≤ i → i < l → list[i]? = some x → cmpfcn x needle = 0) ∧
            (∀ (i : Nat) x, l ≤ i → list[i]? = some x → 0 < cmpfcn x needle)) ∨
         (∃ p : Nat, r = bit_inverse p ∧ first = bit_inverse p ∧ last = bit_inverse p ∧
            p ≤ list.length ∧
            (∀ (i : Nat) x, i < p → list[i]? = some x → cmpfcn x needle < 0) ∧
            (∀ (i : Nat) x, p ≤ i → list[i]? = some x → 0 < cmpfcn x needle))) := by
  have hend : ∀ imin imax : Int, 0 ≤ imin → imax < list.length → imin ≤ imax + 1 →
      ¬ imin ≤ imax →
      (∀ (i : Nat) x, (i : Int) < imin → list[i]? = some x → cmpfcn x needle < 0) →
      (∀ (i : Nat) x, imax < (i : Int) → list[i]? = some x → 0 < cmpfcn x needle) →
      ∃ p : Nat, bit_inverse imin = bit_inverse p ∧ bit_inverse imin = bit_inverse p ∧
        bit_inverse imin = bit_inverse p ∧ p ≤ list.length ∧
        (∀ (i : Nat) x, i < p → list[i]? = some x → cmpfcn x needle < 0) ∧
        (∀ (i : Nat) x, p ≤ i → list[i]? = some x → 0 < cmpfcn x needle) := by
    intro imin imax h0 h1 h2 h3 hlo hhi
    have hp : bit_inverse imin = bit_inverse (imin.toNat : Int) := by
      rw [Int.toNat_of_nonneg h0]
    refine ⟨imin.toNat, hp, hp, hp, by omega, ?_, ?_⟩
    · intro i x hi hx; exact hlo i x (by omega) hx
    · intro i x hi hx; exact hhi i x (by omega) hx
  induction rounds with
  | zero =>
    intro imin imax h0 h1 h2 h3 hlo hhi
    have hno : ¬ imin ≤ imax := by omega
    refine ⟨bit_inverse imin, bit_inverse imin, bit_inverse imin,
      fun b1 b2 => by simp only [ptrarray_find_loop, if_neg hno], Or.inr ?_⟩
    exact hend imin imax h0 h1 h2 hno hlo hhi
  | succ rounds ih =>
    intro imin imax h0 h1 h2 h3 hlo hhi
    by_cases hle : imin ≤ imax
    · obtain ⟨mid, hmd⟩ : ∃ mid, mid = imin + (imax - imin) / 2 := ⟨_, rfl⟩
      have hmid : imin ≤ mid ∧ mid ≤ imax := by omega
      have hlt : mid.toNat < list.length := by omega
      obtain ⟨x, hx⟩ : ∃ x, list[mid.toNat]? = some x := ⟨_, List.getElem?_eq_getElem hlt⟩
      by_cases hc0 : cmpfcn x needle = 0
      · obtain ⟨f, hf, hfm, hflo, hfeq⟩ := ptrarray_first_loop_spec list needle cmpfcn hs
          mid.toNat x hx hc0 (list.length + 1) imin (mid + 1) h0 (by omega) (by omega)
          (by omega) (by omega) hlo (by intro i x' hi hi2; omega)
        obtain ⟨l, hl, hlm, hllen, hleq, hlhi⟩ := ptrarray_last_loop_spec list needle cmpfcn hs
          mid.toNat x hx hc0 (list.length + 1) (mid + 1) imax (by omega) (by omega) h1
          (by omega)
          (by
            intro i x' hi hi2 hx'
            have : i = mid.toNat := by omega
            subst this; rw [hx] at hx'; cases hx'; exact hc0) hhi
        refine ⟨mid, f, (l : Int) - 1, ?_, Or.inl ⟨f, l, rfl, by omega, by omega, by omega,
          hllen, hflo, ?_, hlhi⟩⟩
        · intro b1 b2
          simp only [ptrarray_find_loop, if_pos hle, ← hmd, hx, if_pos hc0, hf, hl]
          cases b1 <;> cases b2 <;> rfl
        · intro i x' hi hi2 hx'
          by_cases him : i ≤ mid.toNat
          · exact hfeq i x' hi him hx'
          · exact hleq i x' (by omega) hi2 hx'
      · by_cases hcl : cmpfcn x needle < 0
        · obtain ⟨r, first, last, hres, hpost⟩ := ih (mid + 1) imax (by omega) h1 (by omega)
            (by omega)
            (by
              intro i x' hi hx'
              by_cases him : i = mid.toNat
              · subst him; rw [hx] at hx'; cases hx'; exact hcl
              · exact (sorted_for_index _ _ _ hs i mid.toNat x' x (by omega) hx' hx).1 hcl)
            hhi
          refine ⟨r, first, last, ?_, hpost⟩
          intro b1 b2
          simp only [ptrarray_find_loop, if_pos hle, ← hmd, hx, if_neg hc0, if_pos hcl]
          exact hres b1 b2
        · obtain ⟨r, first, last, hres, hpost⟩ := ih imin (mid - 1) h0 (by omega) (by omega)
            (by omega) hlo
            (by
              intro i x' hi hx'
              by_cases him : i = mid.toNat
              · subst him; rw [hx] at hx'; cases hx'; omega
              · exact (sorted_for_index _ _ _ hs mid.toNat i x x' (by omega) hx hx').2
                  (by omega))
          refine ⟨r, first, last, ?_, hpost⟩
          intro b1 b2
          simp only [ptrarray_find_loop, if_pos hle, ← hmd, hx, if_neg hc0, if_neg hcl]
          exact hres b1 b2
    · refine ⟨bit_inverse imin, bit_inverse imin, bit_inverse imin,
        fun b1 b2 => by simp only [ptrarray_find_loop, if_neg hle], Or.inr ?_⟩
      exact hend imin imax h0 h1 h2 hle hlo hhi

/-- C19: for a list that is sorted for the needle,
nm_utils_ptrarray_find_binary_search stores through the non-NULL out_idx_first
and out_idx_last, when some entry compares equal, the smallest and the largest
index whose entry compares equal (the entries that compare equal are exactly
those from *out_idx_first to *out_idx_last), and the returned index lies between
them.  When no entry compares equal, the return value, *out_idx_first and
*out_idx_last are all the bitwise inverse of the insertion position.  A NULL
pointer changes nothing but that its value is not stored. -/
theorem ptrarray_find_binary_search_first_last {α ν : Type} (list : List α) (needle : ν)
    (cmpfcn : α → ν → Int) (hs : sorted_for cmpfcn needle list) :
    ∃ r first last : Int,
      (∀ out_idx_first out_idx_last : Bool,
        nm_utils_ptrarray_find_binary_search list needle cmpfcn out_idx_first out_idx_last
          = some (r, if out_idx_first then some first else none,
              if out_idx_last then some last else none)) ∧
      ((∃ x ∈ list, cmpfcn x needle = 0) →
        0 ≤ first ∧ first ≤ r ∧ r ≤ last ∧ last < list.length ∧
        ∀ (i : Nat) x, list[i]? = some x →
          (cmpfcn x needle = 0 ↔ first ≤ (i : Int) ∧ (i : Int) ≤ last)) ∧
      ((∀ x ∈ list, cmpfcn x needle ≠ 0) →
        first = r ∧ last = r ∧ r < 0 ∧ bit_inverse r ≤ list.length ∧
        (∀ (i : Nat) x, (i : Int) < bit_inverse r → list[i]? = some x → cmpfcn x needle < 0) ∧
        (∀ (i : Nat) x, bit_inverse r ≤ (i : Int) → list[i]? = some x →
          0 < cmpfcn x needle)) := by
  have key : ∃ r first last : Int,
      (∀ b1 b2 : Bool, nm_utils_ptrarray_find_binary_search list needle cmpfcn b1 b2
          = some (r, if b1 then some first else none, if b2 then some last else none)) ∧
      ((∃ f l : Nat, first = f ∧ last + 1 = l ∧ (f : Int) ≤ r ∧ r < l ∧ l ≤ list.length ∧
          (∀ (i : Nat) x, i < f → list[i]? = some x → cmpfcn x needle < 0) ∧
          (∀ (i : Nat) x, f ≤ i → i < l → list[i]? = some x → cmpfcn x needle = 0) ∧
          (∀ (i : Nat) x, l ≤ i → list[i]? = some x → 0 < cmpfcn x needle)) ∨
       (∃ p : Nat, r = bit_inverse p ∧ first = bit_inverse p ∧ last = bit_inverse p ∧
          p ≤ list.length ∧
          (∀ (i : Nat) x, i < p → list[i]? = some x → cmpfcn x needle < 0) ∧
          (∀ (i : Nat) x, p ≤ i → list[i]? = some x → 0 < cmpfcn x needle))) := by
    by_cases hlen : list.length > 0
    · obtain ⟨r, first, last, hres, hpost⟩ := ptrarray_find_loop_spec list needle cmpfcn hs
        list.length 0 ((list.length : Int) - 1) (le_refl 0) (by omega) (by omega) (by omega)
        (by intro i x hi; omega)
        (by
          intro i x hi hx
          have := (List.getElem?_eq_some.mp hx).1
          omega)
      refine ⟨r, first, last, ?_, hpost⟩
      intro b1 b2
      simp only [nm_utils_ptrarray_find_binary_search, if_pos hlen]
      exact hres b1 b2
    · refine ⟨bit_inverse 0, bit_inverse 0, bit_inverse 0, ?_, Or.inr ⟨0, rfl, rfl, rfl,
        by omega, ?_, ?_⟩⟩
      · intro b1 b2
        simp only [nm_utils_ptrarray_find_binary_search, if_neg hlen]
      · intro i x hi; omega
      · intro i x _ hx
        have := (List.getElem?_eq_some.mp hx).1
        omega
  obtain ⟨r, first, last, hres, hpost⟩ := key
  refine ⟨r, first, last, hres, ?_, ?_⟩
  · rintro ⟨x, hx, hx0⟩
    obtain ⟨k, hk, hkx⟩ := List.getElem_of_mem hx
    have hget : list[k]? = some x := by rw [List.getElem?_eq_getElem hk, hkx]
    rcases hpost with ⟨f, l, hf, hl, hfr, hrl, hllen, hlo, heq, hhi⟩ | ⟨p, _, _, _, _, hlo, hhi⟩
    · refine ⟨by omega, by omega, by omega, by omega, ?_⟩
      intro i y hy
      constructor
      · intro hy0
        by_contra hout
        by_cases hif : i < f
        · have := hlo i y hif hy; omega
        · have := hhi i y (by omega) hy; omega
      · intro hin
        exact heq i y (by omega) (by omega) hy
    · by_cases hkp : k < p
      · have := hlo k x hkp hget; omega
      · have := hhi k x (by omega) hget; omega
  · intro hnone
    rcases hpost with ⟨f, l, hf, hl, hfr, hrl, hllen, hlo, heq, hhi⟩ | ⟨p, hr, hfi, hla, hp, hlo, hhi⟩
    · exfalso
      have hfl : f < list.length := by omega
      have hget : list[f]? = some list[f] := List.getElem?_eq_getElem hfl
      exact hnone list[f] (List.getElem_mem hfl) (heq f list[f] (le_refl f) (by omega) hget)
    · subst hr
      rw [bit_inverse_bit_inverse]
      refine ⟨hfi, hla, by unfold bit_inverse; omega, by omega, ?_, ?_⟩
      · intro i x hi hx; exact hlo i x (by omega) hx
      · intro i x hi hx; exact hhi i x (by omega) hx

/-- Witness of C19: the three entries 3 of the sorted 1, 3, 3, 3, 5. -/
theorem ptrarray_find_binary_search_first_last_witness :
    sorted_for (fun a b : Int => a - b) 3 [1, 3, 3, 3, 5] ∧
    nm_utils_ptrarray_find_binary_search [1, 3, 3, 3, 5] (3 : Int) (fun a b : Int => a - b)
      true true = some (2, some 1, some 3) ∧
    ∃ r first last : Int,
      nm_utils_ptrarray_find_binary_search [1, 3, 3, 3, 5] (3 : Int) (fun a b : Int => a - b)
        true true = some (r, some first, some last) ∧ first ≤ r ∧ r ≤ last :=
  have h := ptrarray_find_binary_search_first_last [1, 3, 3, 3, 5] (3 : Int)
    (fun a b : Int => a - b) (by unfold sorted_for; decide)
  ⟨by unfold sorted_for; decide, by decide,
   h.elim fun r h1 => h1.elim fun first h2 => h2.elim fun last h3 =>
     ⟨r, first, last, h3.1 true true,
      (h3.2.1 ⟨3, by decide, by decide⟩).2.1, (h3.2.1 ⟨3, by decide, by decide⟩).2.2.1⟩⟩


/-! ## Theorems: the D-Bus client teardown -/

/-- The function `_event_dequeue_and_handle`, with an event queued, unlinks the
first event, calls its handler and frees it: these are the calls that treat a
queued event. -/
theorem event_dequeue_and_handle_first
    (run_handler : Nat → NMDBusClient → Nat → NMDBusClient) (self : NMDBusClient)
    (e : EventData) (rest : List EventData) (h : self.event_lst_head = e :: rest) :
    (_event_dequeue_and_handle run_handler self).1 = true ∧
    (_event_dequeue_and_handle run_handler self).2.2 =
      [DBusCall.g_mutex_lock, DBusCall.c_list_unlink e, DBusCall.g_mutex_unlock,
       DBusCall.handle_fcn e.handle_fcn e.user_data, DBusCall.g_slice_free_EventData e] := by
  simp [_event_dequeue_and_handle, c_list_first_entry, h]

/-- The calls of `nm_dbus_client_free` when nothing is asserted or every
assertion holds. -/
theorem dbus_client_free_calls (NM_MORE_ASSERTS : Bool) (G_IS_DBUS_CONNECTION : Nat → Bool)
    (signal_id_cleared : Nat → Nat → Nat) (self : NMDBusClient) :
    (nm_dbus_client_free NM_MORE_ASSERTS G_IS_DBUS_CONNECTION signal_id_cleared (some self)).calls
      = [DBusCall.g_assertion_message] ∨
    (nm_dbus_client_free NM_MORE_ASSERTS G_IS_DBUS_CONNECTION signal_id_cleared (some self)).calls
      = (nm_clear_g_cancellable (some self.i_name_owner_get_cancellable)).2.1 ++
        [DBusCall.nm_clear_g_dbus_connection_signal self.dbus_connection
           self.name_owner_changed_id,
         DBusCall.g_object_unref self.dbus_connection,
         DBusCall.g_main_context_unref self.caller_context,
         DBusCall.g_main_context_unref self.intern_context,
         DBusCall.g_mutex_clear,
         DBusCall.g_slice_free_NMDBusClient] := by
  unfold nm_dbus_client_free NM_IS_DBUS_CLIENT
  by_cases h1 : nm_assert NM_MORE_ASSERTS (G_IS_DBUS_CONNECTION self.dbus_connection) = true
  · by_cases h2 : nm_assert NM_MORE_ASSERTS (c_list_is_empty self.event_lst_head) = true
    · right; simp [h1, h2]
    · left; simp [h1, h2]
  · left; simp [h1]

/-- C21: nm_dbus_client_free asserts that no events are queued at teardown
rather than draining them.  Whatever is queued, with or without assertions, no
call of the function is the handler of an event, the unlinking of an event or
the freeing of an event, and the events are still linked when it ends.  The
event list is looked at only by the assertion that it is empty: if that
assertion is active and fails, the program ends there before any teardown, and
otherwise the run is the run on the same client with an empty event list. -/
theorem dbus_client_free_asserts_no_events (NM_MORE_ASSERTS : Bool)
    (G_IS_DBUS_CONNECTION : Nat → Bool) (signal_id_cleared : Nat → Nat → Nat)
    (self : NMDBusClient) :
    (∀ fcn user_data, DBusCall.handle_fcn fcn user_data ∉
      (nm_dbus_client_free NM_MORE_ASSERTS G_IS_DBUS_CONNECTION signal_id_cleared
        (some self)).calls) ∧
    (∀ e, DBusCall.c_list_unlink e ∉
      (nm_dbus_client_free NM_MORE_ASSERTS G_IS_DBUS_CONNECTION signal_id_cleared
        (some self)).calls) ∧
    (∀ e, DBusCall.g_slice_free_EventData e ∉
      (nm_dbus_client_free NM_MORE_ASSERTS G_IS_DBUS_CONNECTION signal_id_cleared
        (some self)).calls) ∧
    ((nm_dbus_client_free NM_MORE_ASSERTS G_IS_DBUS_CONNECTION signal_id_cleared
        (some self)).self.map (fun s => s.event_lst_head) = some self.event_lst_head) ∧
    (nm_assert NM_MORE_ASSERTS (G_IS_DBUS_CONNECTION self.dbus_connection) = true →
      nm_assert NM_MORE_ASSERTS (c_list_is_empty self.event_lst_head) = false →
      nm_dbus_client_free NM_MORE_ASSERTS G_IS_DBUS_CONNECTION signal_id_cleared (some self)
        = { calls := [DBusCall.g_assertion_message], self := some self, aborted := true }) ∧
    (nm_assert NM_MORE_ASSERTS (c_list_is_empty self.event_lst_head) = true →
      (nm_dbus_client_free NM_MORE_ASSERTS G_IS_DBUS_CONNECTION signal_id_cleared
        (some self)).calls
        = (nm_dbus_client_free NM_MORE_ASSERTS G_IS_DBUS_CONNECTION signal_id_cleared
            (some { self with event_lst_head := [] })).calls ∧
      (nm_dbus_client_free NM_MORE_ASSERTS G_IS_DBUS_CONNECTION signal_id_cleared
        (some self)).aborted
        = (nm_dbus_client_free NM_MORE_ASSERTS G_IS_DBUS_CONNECTION signal_id_cleared
            (some { self with event_lst_head := [] })).aborted ∧
      (nm_dbus_client_free NM_MORE_ASSERTS G_IS_DBUS_CONNECTION signal_id_cleared
        (some self)).self
        = (nm_dbus_client_free NM_MORE_ASSERTS G_IS_DBUS_CONNECTION signal_id_cleared
            (some { self with event_lst_head := [] })).self.map
            (fun s => { s with event_lst_head := self.event_lst_head })) := by
  have hcalls := dbus_client_free_calls NM_MORE_ASSERTS G_IS_DBUS_CONNECTION signal_id_cleared
    self
  have hclear : ∀ c ∈ (nm_clear_g_cancellable (some self.i_name_owner_get_cancellable)).2.1,
      (∃ v, c = DBusCall.g_cancellable_cancel v) ∨ (∃ v, c = DBusCall.g_object_unref v) := by
    intro c hc
    cases hv : self.i_name_owner_get_cancellable with
    | none => simp [nm_clear_g_cancellable, hv] at hc
    | some v =>
      simp [nm_clear_g_cancellable, hv] at hc
      rcases hc with hc | hc
      · exact Or.inl ⟨v, hc⟩
      · exact Or.inr ⟨v, hc⟩
  have hnone : ∀ c ∈ (nm_dbus_client_free NM_MORE_ASSERTS G_IS_DBUS_CONNECTION
      signal_id_cleared (some self)).calls,
      (∀ fcn user_data, c ≠ DBusCall.handle_fcn fcn user_data) ∧
      (∀ e, c ≠ DBusCall.c_list_unlink e) ∧ (∀ e, c ≠ DBusCall.g_slice_free_EventData e) := by
    intro c hc
    rcases hcalls with h | h
    · rw [h] at hc
      simp at hc
      subst hc
      exact ⟨fun _ _ => by simp, fun _ => by simp, fun _ => by simp⟩
    · rw [h] at hc
      rcases List.mem_append.mp hc with hc | hc
      · rcases hclear c hc with ⟨v, hv⟩ | ⟨v, hv⟩ <;> subst hv <;>
          exact ⟨fun _ _ => by simp, fun _ => by simp, fun _ => by simp⟩
      · simp at hc
        rcases hc with hc | hc | hc | hc | hc | hc <;> subst hc <;>
          exact ⟨fun _ _ => by simp, fun _ => by simp, fun _ => by simp⟩
  refine ⟨fun fcn user_data hm => (hnone _ hm).1 fcn user_data rfl,
    fun e hm => (hnone _ hm).2.1 e rfl, fun e hm => (hnone _ hm).2.2 e rfl, ?_, ?_, ?_⟩
  · unfold nm_dbus_client_free NM_IS_DBUS_CLIENT
    by_cases h1 : nm_assert NM_MORE_ASSERTS (G_IS_DBUS_CONNECTION self.dbus_connection) = true
    · by_cases h2 : nm_assert NM_MORE_ASSERTS (c_list_is_empty self.event_lst_head) = true
      · simp [h1, h2]
      · simp [h1, h2]
    · simp [h1]
  · intro h1 h2
    unfold nm_dbus_client_free NM_IS_DBUS_CLIENT
    simp [h1, h2]
  · intro h2
    have h3 : nm_assert NM_MORE_ASSERTS (c_list_is_empty ([] : List EventData)) = true := by
      cases NM_MORE_ASSERTS <;> rfl
    unfold nm_dbus_client_free NM_IS_DBUS_CLIENT
    by_cases h1 : nm_assert NM_MORE_ASSERTS (G_IS_DBUS_CONNECTION self.dbus_connection) = true
    · simp [h1, h2, h3]
    · simp [h1]

/-- Witness of C21: teardown of a client with two queued events, without
assertions and with them. -/
theorem dbus_client_free_asserts_no_events_witness :
    example_dbus_client_queued.event_lst_head
      = [{ handle_fcn := 100, user_data := 11 }, { handle_fcn := 200, user_data := 12 }] ∧
    (nm_dbus_client_free false (fun _ => true) (fun _ _ => 0)
      (some example_dbus_client_queued)).calls
      = [DBusCall.g_cancellable_cancel 9, DBusCall.g_object_unref 9,
         DBusCall.nm_clear_g_dbus_connection_signal 7 5, DBusCall.g_object_unref 7,
         DBusCall.g_main_context_unref 3, DBusCall.g_main_context_unref 4,
         DBusCall.g_mutex_clear, DBusCall.g_slice_free_NMDBusClient] ∧
    DBusCall.handle_fcn 100 11 ∉ (nm_dbus_client_free false (fun _ => true) (fun _ _ => 0)
      (some example_dbus_client_queued)).calls ∧
    nm_dbus_client_free true (fun _ => true) (fun _ _ => 0) (some example_dbus_client_queued)
      = { calls := [DBusCall.g_assertion_message], self := some example_dbus_client_queued,
          aborted := true } :=
  ⟨by decide, by decide,
   (dbus_client_free_asserts_no_events false (fun _ => true) (fun _ _ => 0)
      example_dbus_client_queued).1 100 11,
   (dbus_client_free_asserts_no_events true (fun _ => true) (fun _ _ => 0)
      example_dbus_client_queued).2.2.2.2.1 (by decide) (by decide)⟩

end NM
